import Mathlib

/-!
# Verification of the CFGParser configuration parser

A shallow embedding of `CFGParser` (files `CFGParser.hpp` / `CFGParser.cpp`):
the character-driven parser state machine of `CFGParser::load`, the model
store, the lookup engine (`getString`, `getValueFromInheritance`), the typed
getters (`get`, `getArray`), and the serializer (`CFGParser::save`).

Modelling conventions:
* `std::unordered_map` is modelled as an insertion-ordered association list
  (keys stay unique because insertion goes through `try_emplace`).
* The raw pointer `section_ptr` into the section map is modelled as an
  `Option String` holding the name of the active section; mutations through
  the pointer become updates of the named entry.
* The diagnostic sink records each message in a list.
* File I/O is a finite map from path to file content; a missing path models
  a file that cannot be opened.
* `std::istream::get` returns `-1` once after the last character while
  `eof()` is still false, so the loop body of `load` runs one extra time on
  that out-of-band value; that extra iteration is `stepEOF`, with the stray
  `(char)-1` byte appended to buffers modelled as the byte `0xFF`.
* Host numeric parsing (`std::stoi`) is modelled by `stoiModel`; the value
  `none` stands for the exception thrown on a failed conversion.
-/

set_option maxRecDepth 100000

namespace CFGP

/-- Parse states of the state machine (`ParseAction` in `CFGParser::load`). -/
inductive PA where
  | NEW_LINE
  | SECTION
  | INHERITANCE
  | ATTRIBUTE
  | KEY
  | VALUE
  | VALUE_ARRAY
  | STRING_VALUE
  | COMMENT
  | MULTILINE_COMMENT
  | PREPROCESSOR
  | INCLUDE
  | ERROR
deriving DecidableEq, Repr

/-- `CFGParser::Section`: inheritance list, attribute list, key-value map
(the value map kept as an insertion-ordered association list). -/
structure Sec where
  inheritances : List String
  attributes : List String
  values : List (String × String)
deriving DecidableEq, Repr

/-- The configuration instance: `_section_data`, `_current_file`,
`_base_path`, and the list of diagnostics delivered to `_msg_functor`. -/
structure Config where
  sections : List (String × Sec)
  current_file : String
  base_path : String
  msgs : List String
deriving DecidableEq, Repr

/-- `unordered_map::find`, on the association-list model. -/
def lookupA {α : Type} : List (String × α) → String → Option α
  | [], _ => none
  | (n, s) :: rest, k => if n = k then some s else lookupA rest k

/-- `unordered_map::try_emplace` for the section map: insert an empty
section if the name is absent, report whether insertion happened. -/
def tryEmplaceSec (l : List (String × Sec)) (k : String) : List (String × Sec) × Bool :=
  if (lookupA l k).isSome then (l, false) else (l ++ [(k, Sec.mk [] [] [])], true)

/-- `values[key] = value` (`operator[]` followed by assignment): update the
existing binding, or append a new one. -/
def storeVal : List (String × String) → String → String → List (String × String)
  | [], k, v => [(k, v)]
  | (k0, v0) :: rest, k, v =>
      if k0 = k then (k0, v) :: rest else (k0, v0) :: storeVal rest k v

/-- Mutation through the active-section pointer: update the named entry. -/
def updateSec : List (String × Sec) → String → (Sec → Sec) → List (String × Sec)
  | [], _, _ => []
  | (n, s) :: rest, k, f =>
      if n = k then (n, f s) :: rest else (n, s) :: updateSec rest k f

/-- The local state of one `load` call: the scratch buffers, the active
section pointer, the parse state, and the per-line bookkeeping. -/
structure MSt where
  sec : String
  inh : String
  attr : String
  key : String
  val : String
  pf : String
  ps : String
  ptr : Option String
  act : PA
  line : Nat
  pos : Nat
  ign : Bool
deriving DecidableEq, Repr

/-- `GetErrorLineString` of the source. -/
def getErrorLineString (m : MSt) : String :=
  "Error at line \x27" ++ toString m.line ++ "\x27, character at \x27"
    ++ toString m.pos ++ "\x27 : "

/-- The `msg` lambda: prepend the positional prefix and hand the text to the
message functor. -/
def emitMsg (m : MSt) (g : Config) (s : String) : Config :=
  { g with msgs := g.msgs ++ [getErrorLineString m ++ s] }

/-- The `PushInheritance` lambda: a pending non-empty inheritance token is
recorded on the active section when that base section already exists,
otherwise a diagnostic is emitted; the token buffer is cleared either way
(and kept when there is no active section). -/
def pushInheritance (m : MSt) (g : Config) : MSt × Config :=
  if m.inh ≠ "" then
    match m.ptr with
    | some name =>
        if (lookupA g.sections m.inh).isSome then
          let l := updateSec g.sections name
            (fun s => { s with inheritances := s.inheritances ++ [m.inh] })
          ({ m with inh := "" }, { g with sections := l })
        else
          ({ m with inh := "" },
           emitMsg m g ("Inherited section \"" ++ m.inh ++ "\" is not exist!"))
    | none => (m, g)
  else (m, g)

/-- The `PushAttribute` lambda. -/
def pushAttribute (m : MSt) (g : Config) : MSt × Config :=
  if m.attr ≠ "" then
    match m.ptr with
    | some name =>
        let l := updateSec g.sections name
          (fun s => { s with attributes := s.attributes ++ [m.attr] })
        ({ m with attr := "" }, { g with sections := l })
    | none => (m, g)
  else (m, g)

/-- `case ';'` of the outer switch. -/
def semiStep (m : MSt) (g : Config) : MSt × Config :=
  match m.act with
  | PA.STRING_VALUE => ({ m with val := m.val.push ';' }, g)
  | _ => ({ m with act := PA.COMMENT }, g)

/-- `case '|'`. -/
def pipeStep (m : MSt) (g : Config) : MSt × Config :=
  match m.act with
  | PA.STRING_VALUE => ({ m with val := m.val.push '|' }, g)
  | PA.MULTILINE_COMMENT => ({ m with act := PA.NEW_LINE }, g)
  | _ => ({ m with act := PA.MULTILINE_COMMENT }, g)

/-- `case ' '` and `case '\t'` (the character itself is appended inside a
string value). -/
def spaceStep (c : Char) (m : MSt) (g : Config) : MSt × Config :=
  match m.act with
  | PA.STRING_VALUE => ({ m with val := m.val.push c }, g)
  | PA.PREPROCESSOR =>
      if m.pf = "include" then ({ m with act := PA.INCLUDE, pf := "" }, g)
      else ({ m with pf := "" }, g)
  | PA.ATTRIBUTE | PA.INHERITANCE | PA.KEY | PA.SECTION | PA.VALUE =>
      if m.ign then (m, g)
      else ({ m with act := PA.ERROR }, emitMsg m g "Space in wrong place")
  | _ => (m, g)
/-- `case '\\'` outside `STRING_VALUE`; the `STRING_VALUE` case consumes a
second character and is handled by the driver `feed` (see `escStep`). -/
def backslashStep (m : MSt) (g : Config) : MSt × Config :=
  match m.act with
  | PA.COMMENT | PA.MULTILINE_COMMENT => (m, g)
  | PA.STRING_VALUE => (m, g)
  | _ => ({ m with act := PA.ERROR }, emitMsg m g "Unexpected escape-symbol")

/-- The inner `switch (file.get())` of the escape handler: decode the
character following a backslash inside a string value. -/
def escStep (d : Char) (m : MSt) (g : Config) : MSt × Config :=
  if d = '\\' then ({ m with val := m.val.push '\\' }, g)
  else if d = 'n' then ({ m with val := m.val.push '\n' }, g)
  else if d = '"' then ({ m with val := m.val.push '"' }, g)
  else if d = '\x27' then ({ m with val := m.val.push '\x27' }, g)
  else (m, emitMsg m g "Unknown escape-sequence symbol")

/-- `case '"'`. -/
def quoteStep (m : MSt) (g : Config) : MSt × Config :=
  match m.act with
  | PA.STRING_VALUE => ({ m with act := PA.VALUE }, g)
  | PA.VALUE => ({ m with act := PA.STRING_VALUE }, g)
  | _ => (m, g)

/-- `case '#'`. -/
def hashStep (m : MSt) (g : Config) : MSt × Config :=
  match m.act with
  | PA.COMMENT | PA.MULTILINE_COMMENT => (m, g)
  | PA.NEW_LINE => ({ m with act := PA.PREPROCESSOR }, g)
  | PA.STRING_VALUE => ({ m with val := m.val.push '#' }, g)
  | _ => ({ m with act := PA.ERROR }, emitMsg m g "Preprocessor parse error")

/-- `case '\n'`: commit pending work, then reset the per-line state except
inside `STRING_VALUE` and `MULTILINE_COMMENT`; the line counter and the
ignore-spaces flag are always updated. -/
def newlineStep (m : MSt) (g : Config) : MSt × Config :=
  let p1 :=
    match m.act with
    | PA.COMMENT | PA.MULTILINE_COMMENT => (m, g)
    | PA.INHERITANCE => pushInheritance m g
    | PA.PREPROCESSOR | PA.INCLUDE => (m, g)
    | PA.ATTRIBUTE => pushAttribute m g
    | PA.VALUE | PA.VALUE_ARRAY =>
        match m.ptr with
        | some name =>
            let l := updateSec g.sections name
              (fun s => { s with values := storeVal s.values m.key m.val })
            ({ m with key := "", val := "" }, { g with sections := l })
        | none => ({ m with key := "", val := "" }, g)
    | PA.STRING_VALUE | PA.NEW_LINE => (m, g)
    | PA.SECTION => ({ m with act := PA.NEW_LINE }, g)
    | _ => ({ m with act := PA.ERROR }, emitMsg m g "New line parse error")
  let p2 :=
    if p1.1.act ≠ PA.STRING_VALUE ∧ p1.1.act ≠ PA.MULTILINE_COMMENT then
      ({ p1.1 with act := PA.NEW_LINE, pos := 0 }, p1.2)
    else p1
  ({ p2.1 with line := p2.1.line + 1, ign := true }, p2.2)

/-- `case '<'`. -/
def ltStep (m : MSt) (g : Config) : MSt × Config :=
  match m.act with
  | PA.STRING_VALUE => ({ m with val := m.val.push '<' }, g)
  | _ => (m, g)

/-- `case '>'`: in `INCLUDE` this fires the `IncludeFile` lambda, passed in
as the parameter `inc`. -/
def gtStep (inc : String → Config → Config) (m : MSt) (g : Config) : MSt × Config :=
  match m.act with
  | PA.STRING_VALUE => ({ m with val := m.val.push '>' }, g)
  | PA.INCLUDE => ({ m with ps := "" }, inc m.ps g)
  | _ => (m, g)

/-- `case '['`. -/
def lbracketStep (m : MSt) (g : Config) : MSt × Config :=
  match m.act with
  | PA.COMMENT | PA.MULTILINE_COMMENT => (m, g)
  | PA.NEW_LINE =>
      ({ m with ign := false, act := PA.SECTION, sec := "", ptr := none }, g)
  | PA.STRING_VALUE => ({ m with val := m.val.push '[' }, g)
  | _ => ({ m with act := PA.ERROR }, emitMsg m g "Section naming parse error")

/-- `case ']'`: commit the section header through `try_emplace`; on success
the active-section pointer is set, on a duplicate only a diagnostic is
emitted. The ignore-spaces flag is re-armed either way. -/
def rbracketStep (m : MSt) (g : Config) : MSt × Config :=
  match m.act with
  | PA.COMMENT | PA.MULTILINE_COMMENT => (m, g)
  | PA.SECTION =>
      let p := tryEmplaceSec g.sections m.sec
      if p.2 then
        ({ m with ptr := some m.sec, ign := true }, { g with sections := p.1 })
      else
        ({ m with ign := true },
         emitMsg m g ("Section \"" ++ m.sec ++ "\" already exist."))
  | PA.STRING_VALUE => ({ m with val := m.val.push ']' }, g)
  | _ => ({ m with act := PA.ERROR }, emitMsg m g "Section naming parse error")

/-- `case ','`. -/
def commaStep (m : MSt) (g : Config) : MSt × Config :=
  match m.act with
  | PA.COMMENT | PA.MULTILINE_COMMENT => (m, g)
  | PA.INHERITANCE => pushInheritance m g
  | PA.ATTRIBUTE => pushAttribute m g
  | PA.STRING_VALUE | PA.VALUE_ARRAY => ({ m with val := m.val.push ',' }, g)
  | PA.VALUE => ({ m with act := PA.VALUE_ARRAY, val := m.val.push ',' }, g)
  | _ => ({ m with act := PA.ERROR }, emitMsg m g "Enumeration error")

/-- `case ':'`. -/
def colonStep (m : MSt) (g : Config) : MSt × Config :=
  match m.act with
  | PA.COMMENT | PA.MULTILINE_COMMENT => (m, g)
  | PA.SECTION => ({ m with act := PA.INHERITANCE }, g)
  | PA.STRING_VALUE => ({ m with val := m.val.push ':' }, g)
  | _ => ({ m with act := PA.ERROR }, emitMsg m g "Inheritance error")

/-- `case '='`: from a header it switches to attributes; from `KEY` it
inserts the key (empty value) into the active section via `try_emplace`,
with a diagnostic when the key already exists. -/
def eqStep (m : MSt) (g : Config) : MSt × Config :=
  match m.act with
  | PA.COMMENT | PA.MULTILINE_COMMENT => (m, g)
  | PA.SECTION => ({ m with act := PA.ATTRIBUTE }, g)
  | PA.INHERITANCE =>
      let p := pushInheritance m g
      ({ p.1 with act := PA.ATTRIBUTE }, p.2)
  | PA.KEY =>
      (match m.ptr with
       | some name =>
           match lookupA g.sections name with
           | some s =>
               if (lookupA s.values m.key).isSome then
                 ({ m with act := PA.VALUE },
                  emitMsg m g ("Section \"" ++ m.sec ++ "\" key \"" ++ m.key
                    ++ "\" already exist."))
               else
                 let l := updateSec g.sections name
                   (fun s2 => { s2 with values := s2.values ++ [(m.key, "")] })
                 ({ m with act := PA.VALUE }, { g with sections := l })
           | none => ({ m with act := PA.VALUE }, g)
       | none => ({ m with act := PA.VALUE }, g))
  | PA.STRING_VALUE => ({ m with val := m.val.push '=' }, g)
  | _ => ({ m with act := PA.ERROR }, emitMsg m g "Set value error")

/-- The `default` case of the outer switch: accumulate the character into
the buffer belonging to the current state. -/
def defaultStep (c : Char) (m : MSt) (g : Config) : MSt × Config :=
  match m.act with
  | PA.COMMENT | PA.MULTILINE_COMMENT => (m, g)
  | PA.NEW_LINE => ({ m with act := PA.KEY, key := m.key.push c }, g)
  | PA.PREPROCESSOR => ({ m with pf := m.pf.push c }, g)
  | PA.INCLUDE => ({ m with ps := m.ps.push c }, g)
  | PA.SECTION => ({ m with sec := m.sec.push c }, g)
  | PA.INHERITANCE => ({ m with inh := m.inh.push c }, g)
  | PA.ATTRIBUTE => ({ m with attr := m.attr.push c }, g)
  | PA.KEY => ({ m with key := m.key.push c }, g)
  | PA.VALUE | PA.VALUE_ARRAY => ({ m with val := m.val.push c }, g)
  | PA.STRING_VALUE => ({ m with val := m.val.push c }, g)
  | _ => ({ m with act := PA.ERROR }, emitMsg m g "Invalid character error")

/-- The `++character_pos` executed at the end of every loop iteration. -/
def bump (p : MSt × Config) : MSt × Config :=
  ({ p.1 with pos := p.1.pos + 1 }, p.2)

/-- One loop iteration of `CFGParser::load` for an ordinary character:
dispatch on the character, then advance the character position. -/
def stepChar (inc : String → Config → Config) (c : Char) (m : MSt) (g : Config) :
    MSt × Config :=
  bump (
    if c = ';' then semiStep m g
    else if c = '|' then pipeStep m g
    else if c = ' ' ∨ c = '\t' then spaceStep c m g
    else if c = '\\' then backslashStep m g
    else if c = '"' then quoteStep m g
    else if c = '#' then hashStep m g
    else if c = '\n' then newlineStep m g
    else if c = '<' then ltStep m g
    else if c = '>' then gtStep inc m g
    else if c = '[' then lbracketStep m g
    else if c = ']' then rbracketStep m g
    else if c = ',' then commaStep m g
    else if c = ':' then colonStep m g
    else if c = '=' then eqStep m g
    else defaultStep c m g)

/-- Result of feeding the remaining characters of a file through the loop.
`halted` records that the inner `file.get()` of the escape handler hit the
end of the stream, which terminates the outer loop at once. -/
structure FeedOut where
  m : MSt
  g : Config
  halted : Bool
deriving DecidableEq, Repr

/-- The `while (!file.eof())` loop over the actual characters of the file.
A backslash inside `STRING_VALUE` consumes the following character through
the inner `file.get()`; if none is left, the unknown-escape diagnostic fires
and the loop ends with the eof bit already set. -/
def feed (inc : String → Config → Config) : List Char → MSt → Config → FeedOut
  | [], m, g => ⟨m, g, false⟩
  | c :: cs, m, g =>
      if c = '\\' ∧ m.act = PA.STRING_VALUE then
        match cs with
        | [] =>
            ⟨{ m with pos := m.pos + 1 },
             emitMsg m g "Unknown escape-sequence symbol", true⟩
        | d :: cs2 =>
            let p := bump (escStep d m g)
            feed inc cs2 p.1 p.2
      else
        let p := stepChar inc c m g
        feed inc cs p.1 p.2

/-- The final loop iteration: after the last character, `file.get()` yields
`-1` once before `eof()` turns true, and that value falls through to the
default case of the switch; the stray `(char)-1` byte is modelled as `0xFF`. -/
def stepEOF (m : MSt) (g : Config) : MSt × Config :=
  bump (defaultStep (Char.ofNat 255) m g)

/-- Finish the loop: unless the inner escape read already exhausted the
stream, the out-of-band `-1` iteration runs; the local machine state is then
dropped and only the configuration survives. -/
def finishRun (o : FeedOut) : Config :=
  if o.halted then o.g else (stepEOF o.m o.g).2

/-- The local-variable initialisation at the top of `load`. -/
def initMSt : MSt :=
  ⟨"", "", "", "", "", "", "", none, PA.NEW_LINE, 1, 0, true⟩

/-- A configuration as default-constructed: no sections, no diagnostics. -/
def initConfig : Config := ⟨[], "", "", []⟩

/-- `CFGParser::load`: record the path in `_current_file`, open the file
(the finite map `fs` models the file system; a missing path is a failed
open and only reports a diagnostic), then run the character loop. The
`IncludeFile` lambda saves `_current_file`, recursively loads
`_base_path + path`, and restores `_current_file`. The fuel bounds the
include recursion depth, which the source leaves unbounded. -/
def loadFuel (fs : List (String × String)) : Nat → String → Config → Config
  | 0, _, g => g
  | Nat.succ fuel, path, g =>
      let g1 := { g with current_file := path }
      match lookupA fs path with
      | none =>
          { g1 with msgs := g1.msgs ++ ["Cannot open file \"" ++ path ++ "\"."] }
      | some content =>
          finishRun (feed
            (fun p g2 =>
              let f := g2.current_file
              let g3 := loadFuel fs fuel (g2.base_path ++ p) g2
              { g3 with current_file := f })
            content.data initMSt g1)

/-- `CFGParser::getValueFromInheritance`: walk the inheritance list; the
first base section that exists and binds the key supplies the value, the
empty string (`_dummy_str`) is returned otherwise. -/
def getValueFromInheritanceGo (g : Config) (key : String) : List String → String
  | [] => ""
  | b :: bs =>
      match lookupA g.sections b with
      | some bsec =>
          match lookupA bsec.values key with
          | some v => v
          | none => getValueFromInheritanceGo g key bs
      | none => getValueFromInheritanceGo g key bs

/-- `CFGParser::getValueFromInheritance` on a section record. -/
def getValueFromInheritance (g : Config) (sd : Sec) (key : String) : String :=
  getValueFromInheritanceGo g key sd.inheritances

/-- `CFGParser::getString`: own values first; otherwise the inherited value
when it is non-empty; otherwise the default. -/
def getString (g : Config) (sname kname default_value : String) : String :=
  match lookupA g.sections sname with
  | some s =>
      match lookupA s.values kname with
      | some v => v
      | none =>
          let v := getValueFromInheritance g s kname
          if v ≠ "" then v else default_value
  | none => default_value

/-- `CFGParser::hasKey` (the diagnostic side effect of the missing-section
branch is irrelevant to the returned value and omitted). -/
def hasKey (g : Config) (sname kname : String) : Bool :=
  match lookupA g.sections sname with
  | some s => (lookupA s.values kname).isSome
  | none => false

/-- `std::isspace` on the default locale, for the characters relevant to
`std::stoi`. -/
def isSpaceByte (c : Char) : Bool :=
  c = ' ' ∨ c = '\t' ∨ c = '\n' ∨ c = '\x0b' ∨ c = '\x0c' ∨ c = '\x0d'

/-- Decimal value of a digit list. -/
def digitsToNat (l : List Char) : Nat :=
  l.foldl (fun a c => a * 10 + (c.toNat - 48)) 0

/-- `std::stoi` (the host numeric-parsing facility, per spec section 4.5):
skip leading whitespace, read an optional sign and a longest run of decimal
digits; `none` models the exception thrown when no digits are found. -/
def stoiModel (s : String) : Option Int :=
  let cs := s.data.dropWhile isSpaceByte
  let p : Int × List Char :=
    match cs with
    | '+' :: r => (1, r)
    | '-' :: r => (-1, r)
    | _ => (1, cs)
  let ds := p.2.takeWhile Char.isDigit
  if ds = [] then none else some (p.1 * (digitsToNat ds : Int))

/-- `CFGParser::get<int>`: coerce the raw string unless it is empty, in
which case the default is returned without any conversion. `none` models
the fatal numeric-parse failure of `makeValueFromString`. -/
def getIntD (g : Config) (sname kname : String) (default_value : Int) : Option Int :=
  let str := getString g sname kname ""
  if str ≠ "" then stoiModel str else some default_value

/-- The accumulation loop of `CFGParser::getArray`: split the raw string at
commas, coercing each segment as it is completed; the pending segment is
pushed after the loop. `none` models a fatal coercion failure. -/
def getArrayIntGo : List Char → String → List Int → Option (List Int)
  | [], num, acc =>
      (match stoiModel num with
       | some v => some (acc ++ [v])
       | none => none)
  | c :: cs, num, acc =>
      if c = ',' then
        match stoiModel num with
        | some v => getArrayIntGo cs "" (acc ++ [v])
        | none => none
      else getArrayIntGo cs (num.push c) acc

/-- `CFGParser::getArray<int>`: empty raw string yields the empty vector,
otherwise the comma-splitting loop runs. -/
def getArrayInt (g : Config) (sname kname : String) : Option (List Int) :=
  let str := getString g sname kname ""
  if str ≠ "" then getArrayIntGo str.data "" [] else some []

/-- The comma-separated join used by `CFGParser::save` for inheritance and
attribute lists. -/
def joinList : List String → String
  | [] => ""
  | x :: xs => xs.foldl (fun acc y => acc ++ ", " ++ y) x

/-- `CFGParser::save` for one section: header with optional ` : bases` and
` = attributes` parts, one `key = value` line per binding, and a blank
line. -/
def saveSec (p : String × Sec) : String :=
  "[" ++ p.1 ++ "]"
    ++ (if p.2.inheritances ≠ [] then " : " ++ joinList p.2.inheritances else "")
    ++ (if p.2.attributes ≠ [] then " = " ++ joinList p.2.attributes else "")
    ++ "\n"
    ++ p.2.values.foldl (fun acc kv => acc ++ kv.1 ++ " = " ++ kv.2 ++ "\n") ""
    ++ "\n"

/-- `CFGParser::save`: serialize every section in order. -/
def save (g : Config) : String :=
  g.sections.foldl (fun acc p => acc ++ saveSec p) ""

/-- The allowed identifier alphabet, exactly the `allowed_characters` array
of the source. -/
def allowed_characters : List Char :=
  ['0', '1', '2', '3', '4', '5', '6', '7', '8', '9',
   'A', 'B', 'C', 'D', 'E', 'F', 'G', 'H', 'I', 'J', 'K', 'L', 'M',
   'N', 'O', 'P', 'Q', 'R', 'S', 'T', 'U', 'V', 'W', 'X', 'Y', 'Z',
   'a', 'b', 'c', 'd', 'e', 'f', 'g', 'h', 'i', 'j', 'k', 'l', 'm',
   'n', 'o', 'p', 'q', 'r', 's', 't', 'u', 'v', 'w', 'x', 'y', 'z',
   '_']

/-- A character is an identifier character. -/
def identChar (c : Char) : Prop := c ∈ allowed_characters

instance (c : Char) : Decidable (identChar c) := by
  unfold identChar; infer_instance

/-- The characters with a dedicated case in the outer switch; every other
character falls through to the buffer-accumulating default case. -/
def specialChars : List Char :=
  [';', '|', ' ', '\t', '\\', '"', '#', '\n', '<', '>', '[', ']', ',', ':', '=']

/-- A character handled by the default case of the outer switch. -/
def plainChar (c : Char) : Prop := ¬ c ∈ specialChars

instance (c : Char) : Decidable (plainChar c) := by
  unfold plainChar; infer_instance

/-- Spec-side helper: the value bound to the key in the first section of an
inheritance list that exists and binds the key, if any. -/
def firstBaseBindingGo (g : Config) (kname : String) : List String → Option String
  | [] => none
  | b :: bs =>
      match lookupA g.sections b with
      | some bsec =>
          match lookupA bsec.values kname with
          | some v => some v
          | none => firstBaseBindingGo g kname bs
      | none => firstBaseBindingGo g kname bs

/-- The lookup rule exactly as claim C1 words it: the default if the
section is unknown; else the section's own binding if present; else the
binding from the first base in the inheritance list that exists and binds
the key; else the default. -/
def claimGetString (g : Config) (sname kname dflt : String) : String :=
  match lookupA g.sections sname with
  | none => dflt
  | some s =>
      match lookupA s.values kname with
      | some v => v
      | none =>
          match firstBaseBindingGo g kname s.inheritances with
          | some v => v
          | none => dflt

/-- The amended C1 lookup rule: as `claimGetString`, except that the value
found through inheritance is only returned when it is non-empty; an empty
inherited binding falls back to the default. -/
def amendedGetString (g : Config) (sname kname dflt : String) : String :=
  match lookupA g.sections sname with
  | none => dflt
  | some s =>
      match lookupA s.values kname with
      | some v => v
      | none =>
          match firstBaseBindingGo g kname s.inheritances with
          | some v => if v ≠ "" then v else dflt
          | none => dflt

/-- Spec-side split of a raw value string on literal commas; no segment is
trimmed and the final segment is kept even without a trailing comma. -/
def splitCommas : List Char → List String
  | [] => [""]
  | c :: cs =>
      if c = ',' then "" :: splitCommas cs
      else
        match splitCommas cs with
        | h :: t => String.mk (c :: h.data) :: t
        | [] => [String.mk [c]]

/-! ## Basic facts about strings and the association-list operations -/

lemma mk_data (s : String) : String.mk s.data = s := rfl

lemma push_data (s : String) (c : Char) : (s.push c).data = s.data ++ [c] := rfl

/-! ## Unfolding and composition lemmas for the character loop -/

lemma feed_nil (inc : String → Config → Config) (m : MSt) (g : Config) :
    feed inc [] m g = ⟨m, g, false⟩ := rfl

lemma feed_cons_step (inc : String → Config → Config) (c : Char) (cs : List Char)
    (m : MSt) (g : Config) (h : ¬(c = '\\' ∧ m.act = PA.STRING_VALUE)) :
    feed inc (c :: cs) m g
      = feed inc cs (stepChar inc c m g).1 (stepChar inc c m g).2 := by
  rw [feed.eq_def]
  simp only []
  rw [if_neg h]

/-- A character without a dedicated switch case goes through the default
accumulating case, whatever the state. -/
lemma stepChar_plain (inc : String → Config → Config) (c : Char) (m : MSt)
    (g : Config) (hc : plainChar c) :
    stepChar inc c m g = bump (defaultStep c m g) := by
  simp only [plainChar, specialChars, List.mem_cons, List.not_mem_nil, or_false,
    not_or] at hc
  obtain ⟨h1, h2, h3, h4, h5, h6, h7, h8, h9, h10, h11, h12, h13, h14, h15⟩ := hc
  simp [stepChar, h1, h2, h3, h4, h5, h6, h7, h8, h9, h10, h11, h12, h13, h14, h15]

/-- Splitting the character stream at any point where no string-value
escape can straddle the cut. -/
lemma feed_append (inc : String → Config → Config) (a b : List Char) (m : MSt)
    (g : Config) (ha : ¬ '\\' ∈ a) :
    feed inc (a ++ b) m g = feed inc b (feed inc a m g).m (feed inc a m g).g := by
  induction a generalizing m g with
  | nil => rfl
  | cons c a ih =>
      have hcne : c ≠ '\\' := by
        intro h; exact ha (h ▸ List.mem_cons_self c a)
      have ha2 : ¬ '\\' ∈ a := fun h => ha (List.mem_cons_of_mem c h)
      have hne : ¬(c = '\\' ∧ m.act = PA.STRING_VALUE) := fun h => hcne h.1
      rw [List.cons_append, feed_cons_step inc c (a ++ b) m g hne,
        feed_cons_step inc c a m g hne, ih _ _ ha2]

lemma stepChar_semi (inc : String → Config → Config) (m : MSt) (g : Config) :
    stepChar inc ';' m g = bump (semiStep m g) := rfl

lemma stepChar_pipe (inc : String → Config → Config) (m : MSt) (g : Config) :
    stepChar inc '|' m g = bump (pipeStep m g) := rfl

lemma stepChar_spc (inc : String → Config → Config) (m : MSt) (g : Config) :
    stepChar inc ' ' m g = bump (spaceStep ' ' m g) := rfl

lemma stepChar_tab (inc : String → Config → Config) (m : MSt) (g : Config) :
    stepChar inc '\t' m g = bump (spaceStep '\t' m g) := rfl

lemma stepChar_bslash (inc : String → Config → Config) (m : MSt) (g : Config) :
    stepChar inc '\\' m g = bump (backslashStep m g) := rfl

lemma stepChar_quote (inc : String → Config → Config) (m : MSt) (g : Config) :
    stepChar inc '"' m g = bump (quoteStep m g) := rfl

lemma stepChar_hash (inc : String → Config → Config) (m : MSt) (g : Config) :
    stepChar inc '#' m g = bump (hashStep m g) := rfl

lemma stepChar_nl (inc : String → Config → Config) (m : MSt) (g : Config) :
    stepChar inc '\n' m g = bump (newlineStep m g) := rfl

lemma stepChar_lt (inc : String → Config → Config) (m : MSt) (g : Config) :
    stepChar inc '<' m g = bump (ltStep m g) := rfl

lemma stepChar_gt (inc : String → Config → Config) (m : MSt) (g : Config) :
    stepChar inc '>' m g = bump (gtStep inc m g) := rfl

lemma stepChar_lbr (inc : String → Config → Config) (m : MSt) (g : Config) :
    stepChar inc '[' m g = bump (lbracketStep m g) := rfl

lemma stepChar_rbr (inc : String → Config → Config) (m : MSt) (g : Config) :
    stepChar inc ']' m g = bump (rbracketStep m g) := rfl

lemma stepChar_comma (inc : String → Config → Config) (m : MSt) (g : Config) :
    stepChar inc ',' m g = bump (commaStep m g) := rfl

lemma stepChar_colon (inc : String → Config → Config) (m : MSt) (g : Config) :
    stepChar inc ':' m g = bump (colonStep m g) := rfl

lemma stepChar_assign (inc : String → Config → Config) (m : MSt) (g : Config) :
    stepChar inc '=' m g = bump (eqStep m g) := rfl

/-- A run of plain characters in state `SECTION` accumulates into the
section-name buffer. -/
lemma feed_run_section (inc : String → Config → Config) (rest : List Char) :
    ∀ (cs : List Char) (m : MSt) (g : Config), (∀ c ∈ cs, plainChar c) →
      m.act = PA.SECTION →
      feed inc (cs ++ rest) m g
        = feed inc rest
            { m with sec := String.mk (m.sec.data ++ cs), pos := m.pos + cs.length } g := by
  intro cs
  induction cs with
  | nil => intro m g _ _; simp [mk_data]
  | cons c cs ih =>
      intro m g hcs hact
      have hc : plainChar c := hcs c (List.mem_cons_self c cs)
      have hcs2 : ∀ x ∈ cs, plainChar x := fun x hx => hcs x (List.mem_cons_of_mem c hx)
      have hcne : ¬(c = '\\' ∧ m.act = PA.STRING_VALUE) := by
        rintro ⟨h1, h2⟩
        rw [hact] at h2
        cases h2
      rw [List.cons_append, feed_cons_step inc c _ m g hcne, stepChar_plain inc c m g hc]
      have hd : bump (defaultStep c m g)
          = ({ m with sec := m.sec.push c, pos := m.pos + 1 }, g) := by
        simp [defaultStep, bump, hact]
      rw [hd]
      dsimp only
      have hstep := ih { m with sec := m.sec.push c, pos := m.pos + 1 } g hcs2 hact
      rw [hstep]
      congr 2
      · simp [push_data]
      · dsimp only
        simp only [List.length_cons]
        omega

/-- A run of plain characters in state `KEY` accumulates into the key
buffer. -/
lemma feed_run_key (inc : String → Config → Config) (rest : List Char) :
    ∀ (cs : List Char) (m : MSt) (g : Config), (∀ c ∈ cs, plainChar c) →
      m.act = PA.KEY →
      feed inc (cs ++ rest) m g
        = feed inc rest
            { m with key := String.mk (m.key.data ++ cs), pos := m.pos + cs.length } g := by
  intro cs
  induction cs with
  | nil => intro m g _ _; simp [mk_data]
  | cons c cs ih =>
      intro m g hcs hact
      have hc : plainChar c := hcs c (List.mem_cons_self c cs)
      have hcs2 : ∀ x ∈ cs, plainChar x := fun x hx => hcs x (List.mem_cons_of_mem c hx)
      have hcne : ¬(c = '\\' ∧ m.act = PA.STRING_VALUE) := by
        rintro ⟨h1, h2⟩
        rw [hact] at h2
        cases h2
      rw [List.cons_append, feed_cons_step inc c _ m g hcne, stepChar_plain inc c m g hc]
      have hd : bump (defaultStep c m g)
          = ({ m with key := m.key.push c, pos := m.pos + 1 }, g) := by
        simp [defaultStep, bump, hact]
      rw [hd]
      dsimp only
      have hstep := ih { m with key := m.key.push c, pos := m.pos + 1 } g hcs2 hact
      rw [hstep]
      congr 2
      · simp [push_data]
      · dsimp only
        simp only [List.length_cons]
        omega

/-- A run of plain characters in state `VALUE` accumulates into the value
buffer. -/
lemma feed_run_value (inc : String → Config → Config) (rest : List Char) :
    ∀ (cs : List Char) (m : MSt) (g : Config), (∀ c ∈ cs, plainChar c) →
      m.act = PA.VALUE →
      feed inc (cs ++ rest) m g
        = feed inc rest
            { m with val := String.mk (m.val.data ++ cs), pos := m.pos + cs.length } g := by
  intro cs
  induction cs with
  | nil => intro m g _ _; simp [mk_data]
  | cons c cs ih =>
      intro m g hcs hact
      have hc : plainChar c := hcs c (List.mem_cons_self c cs)
      have hcs2 : ∀ x ∈ cs, plainChar x := fun x hx => hcs x (List.mem_cons_of_mem c hx)
      have hcne : ¬(c = '\\' ∧ m.act = PA.STRING_VALUE) := by
        rintro ⟨h1, h2⟩
        rw [hact] at h2
        cases h2
      rw [List.cons_append, feed_cons_step inc c _ m g hcne, stepChar_plain inc c m g hc]
      have hd : bump (defaultStep c m g)
          = ({ m with val := m.val.push c, pos := m.pos + 1 }, g) := by
        simp [defaultStep, bump, hact]
      rw [hd]
      dsimp only
      have hstep := ih { m with val := m.val.push c, pos := m.pos + 1 } g hcs2 hact
      rw [hstep]
      congr 2
      · simp [push_data]
      · dsimp only
        simp only [List.length_cons]
        omega

/-- A run of plain characters in state `INHERITANCE` accumulates into the
inheritance-token buffer. -/
lemma feed_run_inh (inc : String → Config → Config) (rest : List Char) :
    ∀ (cs : List Char) (m : MSt) (g : Config), (∀ c ∈ cs, plainChar c) →
      m.act = PA.INHERITANCE →
      feed inc (cs ++ rest) m g
        = feed inc rest
            { m with inh := String.mk (m.inh.data ++ cs), pos := m.pos + cs.length } g := by
  intro cs
  induction cs with
  | nil => intro m g _ _; simp [mk_data]
  | cons c cs ih =>
      intro m g hcs hact
      have hc : plainChar c := hcs c (List.mem_cons_self c cs)
      have hcs2 : ∀ x ∈ cs, plainChar x := fun x hx => hcs x (List.mem_cons_of_mem c hx)
      have hcne : ¬(c = '\\' ∧ m.act = PA.STRING_VALUE) := by
        rintro ⟨h1, h2⟩
        rw [hact] at h2
        cases h2
      rw [List.cons_append, feed_cons_step inc c _ m g hcne, stepChar_plain inc c m g hc]
      have hd : bump (defaultStep c m g)
          = ({ m with inh := m.inh.push c, pos := m.pos + 1 }, g) := by
        simp [defaultStep, bump, hact]
      rw [hd]
      dsimp only
      have hstep := ih { m with inh := m.inh.push c, pos := m.pos + 1 } g hcs2 hact
      rw [hstep]
      congr 2
      · simp [push_data]
      · dsimp only
        simp only [List.length_cons]
        omega

/-- A run of plain characters in state `ATTRIBUTE` accumulates into the
attribute-token buffer. -/
lemma feed_run_attr (inc : String → Config → Config) (rest : List Char) :
    ∀ (cs : List Char) (m : MSt) (g : Config), (∀ c ∈ cs, plainChar c) →
      m.act = PA.ATTRIBUTE →
      feed inc (cs ++ rest) m g
        = feed inc rest
            { m with attr := String.mk (m.attr.data ++ cs), pos := m.pos + cs.length } g := by
  intro cs
  induction cs with
  | nil => intro m g _ _; simp [mk_data]
  | cons c cs ih =>
      intro m g hcs hact
      have hc : plainChar c := hcs c (List.mem_cons_self c cs)
      have hcs2 : ∀ x ∈ cs, plainChar x := fun x hx => hcs x (List.mem_cons_of_mem c hx)
      have hcne : ¬(c = '\\' ∧ m.act = PA.STRING_VALUE) := by
        rintro ⟨h1, h2⟩
        rw [hact] at h2
        cases h2
      rw [List.cons_append, feed_cons_step inc c _ m g hcne, stepChar_plain inc c m g hc]
      have hd : bump (defaultStep c m g)
          = ({ m with attr := m.attr.push c, pos := m.pos + 1 }, g) := by
        simp [defaultStep, bump, hact]
      rw [hd]
      dsimp only
      have hstep := ih { m with attr := m.attr.push c, pos := m.pos + 1 } g hcs2 hact
      rw [hstep]
      congr 2
      · simp [push_data]
      · dsimp only
        simp only [List.length_cons]
        omega

/-- Inside a `;` comment, every character other than `|` and the newline is
inert: only the character position advances. -/
lemma stepChar_comment (inc : String → Config → Config) (c : Char) (m : MSt)
    (g : Config) (hact : m.act = PA.COMMENT) (h1 : c ≠ '|') (h2 : c ≠ '\n') :
    stepChar inc c m g = ({ m with pos := m.pos + 1 }, g) := by
  obtain ⟨sec, inh, attr, key, val, pf, ps, ptr, act, line, pos, ign⟩ := m
  replace hact : act = PA.COMMENT := hact
  subst hact
  by_cases e1 : c = ';'
  · subst e1; rfl
  by_cases e2 : c = '|'
  · exact absurd e2 h1
  by_cases e3 : c = ' '
  · subst e3; rfl
  by_cases e4 : c = '\t'
  · subst e4; rfl
  by_cases e5 : c = '\\'
  · subst e5; rfl
  by_cases e6 : c = '"'
  · subst e6; rfl
  by_cases e7 : c = '#'
  · subst e7; rfl
  by_cases e8 : c = '\n'
  · exact absurd e8 h2
  by_cases e9 : c = '<'
  · subst e9; rfl
  by_cases e10 : c = '>'
  · subst e10; rfl
  by_cases e11 : c = '['
  · subst e11; rfl
  by_cases e12 : c = ']'
  · subst e12; rfl
  by_cases e13 : c = ','
  · subst e13; rfl
  by_cases e14 : c = ':'
  · subst e14; rfl
  by_cases e15 : c = '='
  · subst e15; rfl
  have hc : plainChar c := by
    simp only [plainChar, specialChars, List.mem_cons, List.not_mem_nil, or_false, not_or]
    exact ⟨e1, e2, e3, e4, e5, e6, e7, e8, e9, e10, e11, e12, e13, e14, e15⟩
  rw [stepChar_plain inc c _ g hc]
  rfl

/-- A run of characters free of `|` and newlines inside a `;` comment moves
only the character position. -/
lemma feed_run_comment (inc : String → Config → Config) (rest : List Char) :
    ∀ (cs : List Char) (m : MSt) (g : Config), (∀ c ∈ cs, c ≠ '|' ∧ c ≠ '\n') →
      m.act = PA.COMMENT →
      feed inc (cs ++ rest) m g
        = feed inc rest { m with pos := m.pos + cs.length } g := by
  intro cs
  induction cs with
  | nil => intro m g _ _; simp
  | cons c cs ih =>
      intro m g hcs hact
      have hc := hcs c (List.mem_cons_self c cs)
      have hcs2 : ∀ x ∈ cs, x ≠ '|' ∧ x ≠ '\n' :=
        fun x hx => hcs x (List.mem_cons_of_mem c hx)
      have hcne : ¬(c = '\\' ∧ m.act = PA.STRING_VALUE) := by
        rintro ⟨h1, h2⟩
        rw [hact] at h2
        cases h2
      rw [List.cons_append, feed_cons_step inc c _ m g hcne,
        stepChar_comment inc c m g hact hc.1 hc.2]
      dsimp only
      have hstep := ih { m with pos := m.pos + 1 } g hcs2 hact
      rw [hstep]
      congr 2
      dsimp only
      simp only [List.length_cons]
      omega

/-! ## Line-level composition lemmas -/

/-- Spaces and tabs are silently skipped in the identifier-accumulating
states while the ignore-spaces flag is set. -/
lemma feed_spaces_tol (inc : String → Config → Config) (rest : List Char) :
    ∀ (sp : List Char) (m : MSt) (g : Config), (∀ x ∈ sp, x = ' ' ∨ x = '\t') →
      (m.act = PA.KEY ∨ m.act = PA.VALUE ∨ m.act = PA.SECTION ∨
        m.act = PA.INHERITANCE ∨ m.act = PA.ATTRIBUTE) →
      m.ign = true →
      feed inc (sp ++ rest) m g
        = feed inc rest { m with pos := m.pos + sp.length } g := by
  intro sp
  induction sp with
  | nil => intro m g _ _ _; simp
  | cons c cs ih =>
      intro m g hcs hact hign
      have hc := hcs c (List.mem_cons_self c cs)
      have hcs2 : ∀ x ∈ cs, x = ' ' ∨ x = '\t' :=
        fun x hx => hcs x (List.mem_cons_of_mem c hx)
      have hcne : ¬(c = '\\' ∧ m.act = PA.STRING_VALUE) := by
        rintro ⟨h1, h2⟩
        rcases hact with h | h | h | h | h <;> rw [h] at h2 <;> cases h2
      have hstep : stepChar inc c m g = ({ m with pos := m.pos + 1 }, g) := by
        have hsp : spaceStep c m g = (m, g) := by
          rcases hact with h | h | h | h | h <;> simp [spaceStep, h, hign]
        rcases hc with h | h <;> subst h
        · rw [stepChar_spc, hsp]; rfl
        · rw [stepChar_tab, hsp]; rfl
      rw [List.cons_append, feed_cons_step inc c _ m g hcne, hstep]
      dsimp only
      have h2 := ih { m with pos := m.pos + 1 } g hcs2 hact hign
      rw [h2]
      congr 2
      dsimp only
      simp only [List.length_cons]
      omega

/-- An assignment line processed while no section is active: the key is
collected, `=` and the value commit are both guarded on the null active
section, so the model and the diagnostics are untouched and the line ends
back in `NEW_LINE`. -/
lemma feed_kv_none (inc : String → Config → Config) (rest : List Char) (c : Char)
    (krest sp1 sp2 vcs : List Char) (m : MSt) (g : Config)
    (hc : plainChar c) (hk : ∀ x ∈ krest, plainChar x)
    (hs1 : ∀ x ∈ sp1, x = ' ' ∨ x = '\t') (hs2 : ∀ x ∈ sp2, x = ' ' ∨ x = '\t')
    (hv : ∀ x ∈ vcs, plainChar x)
    (hact : m.act = PA.NEW_LINE) (hign : m.ign = true) (hptr : m.ptr = none) :
    feed inc (c :: (krest ++ (sp1 ++ ('=' :: (sp2 ++ (vcs ++ ('\n' :: rest))))))) m g
      = feed inc rest { m with key := "", val := "", pos := 1, line := m.line + 1 } g := by
  obtain ⟨sec, inh, attr, key, val, pf, ps, ptr, act, line, pos, ign⟩ := m
  replace hact : act = PA.NEW_LINE := hact
  replace hign : ign = true := hign
  replace hptr : ptr = none := hptr
  subst hact hign hptr
  rw [feed_cons_step inc c _ _ g (by simp), stepChar_plain inc c _ g hc]
  dsimp only [defaultStep, bump]
  rw [feed_run_key inc _ krest _ g hk rfl]
  dsimp only
  rw [feed_spaces_tol inc _ sp1 _ g hs1 (Or.inl rfl) rfl]
  dsimp only
  rw [feed_cons_step inc '=' _ _ g (by simp), stepChar_assign]
  dsimp only [eqStep, bump]
  rw [feed_spaces_tol inc _ sp2 _ g hs2 (Or.inr (Or.inl rfl)) rfl]
  dsimp only
  rw [feed_run_value inc _ vcs _ g hv rfl]
  dsimp only
  rw [feed_cons_step inc '\n' _ _ g (by simp), stepChar_nl]
  dsimp only [newlineStep, bump]
  simp

lemma data_empty : ("".data : List Char) = [] := rfl

lemma str_append_assoc (a b c : String) : (a ++ b) ++ c = a ++ (b ++ c) :=
  congrArg String.mk (List.append_assoc a.data b.data c.data)

lemma updateSec_comp (n : String) (f h : Sec → Sec) :
    ∀ l : List (String × Sec),
      updateSec (updateSec l n f) n h = updateSec l n (fun s => h (f s)) := by
  intro l
  induction l with
  | nil => rfl
  | cons p rest ih =>
      by_cases e : p.1 = n
      · simp [updateSec, e]
      · simp [updateSec, e, ih]

lemma updateSec_congr (n : String) (f h : Sec → Sec) :
    ∀ (l : List (String × Sec)) (s0 : Sec), lookupA l n = some s0 → f s0 = h s0 →
      updateSec l n f = updateSec l n h := by
  intro l
  induction l with
  | nil => intro s0 hl; cases hl
  | cons p rest ih =>
      intro s0 hl hfh
      by_cases e : p.1 = n
      · obtain ⟨p1, p2⟩ := p
        simp only at e
        subst e
        simp only [lookupA, if_pos] at hl
        replace hl : p2 = s0 := by simpa using hl
        subst hl
        simp [updateSec, hfh]
      · obtain ⟨p1, p2⟩ := p
        simp only at e
        simp only [lookupA, if_neg e] at hl
        simp [updateSec, e, ih _ hl hfh]

lemma storeVal_append_fresh (k v : String) :
    ∀ l : List (String × String), lookupA l k = none →
      storeVal (l ++ [(k, "")]) k v = l ++ [(k, v)] := by
  intro l
  induction l with
  | nil => intro h; simp [storeVal]
  | cons p rest ih =>
      intro h
      obtain ⟨p1, p2⟩ := p
      by_cases e : p1 = k
      · simp [lookupA, e] at h
      · simp only [lookupA, if_neg e] at h
        simp [storeVal, e, ih h]

/-- Opening a fresh section header `[name]`: the section is inserted empty
and becomes the active section. -/
lemma feed_header_open_fresh (inc : String → Config → Config) (rest : List Char)
    (a : List Char) (m : MSt) (g : Config)
    (ha : ∀ x ∈ a, plainChar x) (hact : m.act = PA.NEW_LINE)
    (hfresh : lookupA g.sections (String.mk a) = none) :
    feed inc ('[' :: (a ++ (']' :: rest))) m g
      = feed inc rest
          { m with sec := String.mk a, ptr := some (String.mk a), act := PA.SECTION,
                   ign := true, pos := m.pos + 1 + a.length + 1 }
          { g with sections := g.sections ++ [(String.mk a, ⟨[], [], []⟩)] } := by
  obtain ⟨sec, inh, attr, key, val, pf, ps, ptr, act, line, pos, ign⟩ := m
  replace hact : act = PA.NEW_LINE := hact
  subst hact
  rw [feed_cons_step inc '[' _ _ g (by simp), stepChar_lbr]
  dsimp only [lbracketStep, bump]
  rw [feed_run_section inc _ a _ g ha rfl]
  simp only [data_empty, List.nil_append]
  rw [feed_cons_step inc ']' _ _ g (by simp), stepChar_rbr]
  dsimp only [rbracketStep, tryEmplaceSec]
  simp only [hfresh]
  simp [bump]

/-- Opening a duplicate section header `[name]`: one diagnostic, no model
change, and the active-section pointer stays cleared. -/
lemma feed_header_open_dup (inc : String → Config → Config) (rest : List Char)
    (a : List Char) (m : MSt) (g : Config) (s0 : Sec)
    (ha : ∀ x ∈ a, plainChar x) (hact : m.act = PA.NEW_LINE)
    (hdup : lookupA g.sections (String.mk a) = some s0) :
    feed inc ('[' :: (a ++ (']' :: rest))) m g
      = feed inc rest
          { m with sec := String.mk a, ptr := none, act := PA.SECTION,
                   ign := true, pos := m.pos + 1 + a.length + 1 }
          (emitMsg
            { m with sec := String.mk a, ptr := none, act := PA.SECTION,
                     ign := false, pos := m.pos + 1 + a.length }
            g ("Section \"" ++ String.mk a ++ "\" already exist.")) := by
  obtain ⟨sec, inh, attr, key, val, pf, ps, ptr, act, line, pos, ign⟩ := m
  replace hact : act = PA.NEW_LINE := hact
  subst hact
  rw [feed_cons_step inc '[' _ _ g (by simp), stepChar_lbr]
  dsimp only [lbracketStep, bump]
  rw [feed_run_section inc _ a _ g ha rfl]
  simp only [data_empty, List.nil_append]
  rw [feed_cons_step inc ']' _ _ g (by simp), stepChar_rbr]
  dsimp only [rbracketStep, tryEmplaceSec]
  simp only [hdup]
  simp [bump]

lemma emitMsg_sections (m : MSt) (g : Config) (s : String) :
    (emitMsg m g s).sections = g.sections := rfl

/-- An assignment line inside an active section with a not-yet-present key:
the key is inserted empty at `=` and the accumulated value is committed at
the newline, appending one binding. -/
lemma feed_kv_some_fresh (inc : String → Config → Config) (rest : List Char)
    (c : Char) (krest sp1 sp2 vcs : List Char) (n : String) (s0 : Sec)
    (m : MSt) (g : Config)
    (hc : plainChar c) (hk : ∀ x ∈ krest, plainChar x)
    (hs1 : ∀ x ∈ sp1, x = ' ' ∨ x = '\t') (hs2 : ∀ x ∈ sp2, x = ' ' ∨ x = '\t')
    (hv : ∀ x ∈ vcs, plainChar x)
    (hact : m.act = PA.NEW_LINE) (hign : m.ign = true) (hptr : m.ptr = some n)
    (hkey : m.key = "") (hval : m.val = "")
    (hsec : lookupA g.sections n = some s0)
    (hfresh : lookupA s0.values (String.mk (c :: krest)) = none) :
    feed inc (c :: (krest ++ (sp1 ++ ('=' :: (sp2 ++ (vcs ++ ('\n' :: rest))))))) m g
      = feed inc rest { m with key := "", val := "", pos := 1, line := m.line + 1 }
          { g with sections := updateSec g.sections n (fun s => { s with values := s.values ++ [(String.mk (c :: krest), String.mk vcs)] }) } := by
  obtain ⟨sec, inh, attr, key, val, pf, ps, ptr, act, line, pos, ign⟩ := m
  replace hact : act = PA.NEW_LINE := hact
  replace hign : ign = true := hign
  replace hptr : ptr = some n := hptr
  replace hkey : key = "" := hkey
  replace hval : val = "" := hval
  subst hact hign hptr hkey hval
  rw [feed_cons_step inc c _ _ g (by simp), stepChar_plain inc c _ g hc]
  dsimp only [defaultStep, bump]
  rw [feed_run_key inc _ krest _ g hk rfl]
  simp only [data_empty, List.nil_append, List.singleton_append, push_data]
  rw [feed_spaces_tol inc _ sp1 _ g hs1 (Or.inl rfl) rfl]
  dsimp only
  rw [feed_cons_step inc '=' _ _ g (by simp), stepChar_assign]
  dsimp only [eqStep]
  rw [hsec]
  dsimp only
  rw [hfresh]
  simp only [Option.isSome_none, Bool.false_eq_true, if_false]
  dsimp only [bump]
  rw [feed_spaces_tol inc _ sp2 _ _ hs2 (Or.inr (Or.inl rfl)) rfl]
  dsimp only
  rw [feed_run_value inc _ vcs _ _ hv rfl]
  simp only [data_empty, List.nil_append]
  rw [feed_cons_step inc '\n' _ _ _ (by simp), stepChar_nl]
  dsimp only [newlineStep, bump]
  rw [updateSec_comp]
  rw [updateSec_congr n _
    (fun s => { s with values := s.values ++ [(String.mk (c :: krest), String.mk vcs)] })
    g.sections s0 hsec
    (by dsimp only; rw [storeVal_append_fresh _ _ _ hfresh])]
  simp

/-- An assignment line inside an active section whose key already exists:
the `=` emits the duplicate-key diagnostic and the newline commit replaces
the existing binding with the new value. -/
lemma feed_kv_some_dup (inc : String → Config → Config) (rest : List Char)
    (c : Char) (krest sp1 sp2 vcs : List Char) (n : String) (s0 : Sec) (w : String)
    (m : MSt) (g : Config)
    (hc : plainChar c) (hk : ∀ x ∈ krest, plainChar x)
    (hs1 : ∀ x ∈ sp1, x = ' ' ∨ x = '\t') (hs2 : ∀ x ∈ sp2, x = ' ' ∨ x = '\t')
    (hv : ∀ x ∈ vcs, plainChar x)
    (hact : m.act = PA.NEW_LINE) (hign : m.ign = true) (hptr : m.ptr = some n)
    (hkey : m.key = "") (hval : m.val = "")
    (hsec : lookupA g.sections n = some s0)
    (hdup : lookupA s0.values (String.mk (c :: krest)) = some w) :
    feed inc (c :: (krest ++ (sp1 ++ ('=' :: (sp2 ++ (vcs ++ ('\n' :: rest))))))) m g
      = feed inc rest { m with key := "", val := "", pos := 1, line := m.line + 1 }
          { (emitMsg
              { m with act := PA.KEY, key := String.mk (c :: krest),
                       pos := m.pos + 1 + krest.length + sp1.length }
              g ("Section \"" ++ m.sec ++ "\" key \"" ++ String.mk (c :: krest)
                  ++ "\" already exist.")) with
            sections := updateSec g.sections n (fun s => { s with values := storeVal s.values (String.mk (c :: krest)) (String.mk vcs) }) } := by
  obtain ⟨sec, inh, attr, key, val, pf, ps, ptr, act, line, pos, ign⟩ := m
  replace hact : act = PA.NEW_LINE := hact
  replace hign : ign = true := hign
  replace hptr : ptr = some n := hptr
  replace hkey : key = "" := hkey
  replace hval : val = "" := hval
  subst hact hign hptr hkey hval
  rw [feed_cons_step inc c _ _ g (by simp), stepChar_plain inc c _ g hc]
  dsimp only [defaultStep, bump]
  rw [feed_run_key inc _ krest _ g hk rfl]
  simp only [data_empty, List.nil_append, List.singleton_append, push_data]
  rw [feed_spaces_tol inc _ sp1 _ g hs1 (Or.inl rfl) rfl]
  dsimp only
  rw [feed_cons_step inc '=' _ _ g (by simp), stepChar_assign]
  dsimp only [eqStep]
  rw [hsec]
  dsimp only
  rw [hdup]
  simp only [Option.isSome_some, if_true]
  dsimp only [bump]
  rw [feed_spaces_tol inc _ sp2 _ _ hs2 (Or.inr (Or.inl rfl)) rfl]
  dsimp only
  rw [feed_run_value inc _ vcs _ _ hv rfl]
  simp only [data_empty, List.nil_append]
  rw [feed_cons_step inc '\n' _ _ _ (by simp), stepChar_nl]
  dsimp only [newlineStep, bump]
  simp [emitMsg_sections]

/-- C10: an assignment line `KEY = VALUE` parsed while no section is
active leaves the configuration — sections and diagnostics alike —
completely unchanged: both the key insertion at `=` and the value commit
at the newline are guarded on the active-section pointer. -/
theorem c10_no_active_section (inc : String → Config → Config) (rest : List Char)
    (k v : String) (m : MSt) (g : Config)
    (hk0 : k.data ≠ []) (hk : ∀ x ∈ k.data, plainChar x)
    (hv : ∀ x ∈ v.data, plainChar x)
    (hact : m.act = PA.NEW_LINE) (hign : m.ign = true) (hptr : m.ptr = none) :
    feed inc (k.data ++ (' ' :: '=' :: ' ' :: (v.data ++ '\n' :: rest))) m g
      = feed inc rest { m with key := "", val := "", pos := 1, line := m.line + 1 } g := by
  rcases hd : k.data with _ | ⟨c, krest⟩
  · exact absurd hd hk0
  · rw [hd] at hk
    have h := feed_kv_none inc rest c krest [' '] [' '] v.data m g
      (hk c (List.mem_cons_self c krest))
      (fun x hx => hk x (List.mem_cons_of_mem c hx))
      (by intro x hx; simp at hx; subst hx; exact Or.inl rfl)
      (by intro x hx; simp at hx; subst hx; exact Or.inl rfl)
      hv hact hign hptr
    simpa using h

/-- C10 witness at a concrete line `k = 1` with no active section. -/
theorem c10_no_active_section_witness :
    feed (fun _ g => g) ("k".data ++ (' ' :: '=' :: ' ' :: ("1".data ++ '\n' :: [])))
        initMSt initConfig
      = feed (fun _ g => g) []
          { initMSt with key := "", val := "", pos := 1, line := 2 } initConfig :=
  c10_no_active_section (fun _ g => g) [] "k" "1" initMSt initConfig
    (by decide) (by decide) (by decide) rfl rfl rfl

/-! ## Whole-line lemmas and the duplicate-key and duplicate-section claims -/

lemma data_append (a b : String) : (a ++ b).data = a.data ++ b.data := rfl

lemma ident_plain {c : Char} (h : identChar c) : plainChar c := by
  have hall : ∀ x ∈ allowed_characters, plainChar x := by decide
  exact hall c h

lemma lookupA_single {α : Type} (p : String) (x : α) : lookupA [(p, x)] p = some x := by
  simp [lookupA]

lemma loadFuel_some (fs : List (String × String)) (fuel : Nat) (path : String)
    (g : Config) (content : String) (h : lookupA fs path = some content) :
    loadFuel fs (fuel + 1) path g
      = finishRun (feed
          (fun p g2 =>
            let f := g2.current_file
            let g3 := loadFuel fs fuel (g2.base_path ++ p) g2
            { g3 with current_file := f })
          content.data initMSt { g with current_file := path }) := by
  simp [loadFuel, h]

/-- The canonical machine state at the start of a line: empty scratch
buffers except the surviving section-name buffer, state `NEW_LINE`, armed
ignore-spaces flag. -/
def lineSt (sc : String) (p : Option String) (ln ps : Nat) : MSt :=
  ⟨sc, "", "", "", "", "", "", p, PA.NEW_LINE, ln, ps, true⟩

lemma initMSt_lineSt : initMSt = lineSt "" none 1 0 := rfl

/-- A `\n` seen in a line-start state produces the next line-start state. -/
lemma line_blank (inc : String → Config → Config) (rest : List Char)
    (sc : String) (p : Option String) (ln ps : Nat) (g : Config) :
    feed inc ('\n' :: rest) (lineSt sc p ln ps) g
      = feed inc rest (lineSt sc p (ln + 1) 1) g := by
  rw [feed_cons_step inc '\n' _ _ g (by simp [lineSt]), stepChar_nl]
  rfl

/-- A fresh section header line `[name]`. -/
lemma line_header_fresh (inc : String → Config → Config) (rest : List Char)
    (a : List Char) (sc : String) (p : Option String) (ln ps : Nat) (g : Config)
    (ha : ∀ x ∈ a, plainChar x)
    (hfresh : lookupA g.sections (String.mk a) = none) :
    feed inc ('[' :: (a ++ (']' :: '\n' :: rest))) (lineSt sc p ln ps) g
      = feed inc rest (lineSt (String.mk a) (some (String.mk a)) (ln + 1) 1)
          { g with sections := g.sections ++ [(String.mk a, ⟨[], [], []⟩)] } := by
  rw [feed_header_open_fresh inc _ a (lineSt sc p ln ps) g ha rfl hfresh]
  rw [feed_cons_step inc '\n' _ _ _ (by simp [lineSt]), stepChar_nl]
  rfl

/-- A duplicate section header line `[name]`: one diagnostic, the pointer
stays cleared, the model is untouched. -/
lemma line_header_dup (inc : String → Config → Config) (rest : List Char)
    (a : List Char) (sc : String) (p : Option String) (ln ps : Nat) (g : Config)
    (s0 : Sec) (ha : ∀ x ∈ a, plainChar x)
    (hdup : lookupA g.sections (String.mk a) = some s0) :
    feed inc ('[' :: (a ++ (']' :: '\n' :: rest))) (lineSt sc p ln ps) g
      = feed inc rest (lineSt (String.mk a) none (ln + 1) 1)
          (emitMsg (lineSt (String.mk a) none ln (ps + 1 + a.length))
            g ("Section \"" ++ String.mk a ++ "\" already exist.")) := by
  rw [feed_header_open_dup inc _ a (lineSt sc p ln ps) g s0 ha rfl hdup]
  rw [feed_cons_step inc '\n' _ _ _ (by simp [lineSt]), stepChar_nl]
  rfl

/-- An assignment line `key(sp1)=(sp2)value` with no active section: no
model change, no diagnostic. -/
lemma line_kv_none (inc : String → Config → Config) (rest : List Char)
    (c : Char) (krest sp1 sp2 vcs : List Char) (sc : String) (ln ps : Nat)
    (g : Config)
    (hc : plainChar c) (hk : ∀ x ∈ krest, plainChar x)
    (hs1 : ∀ x ∈ sp1, x = ' ' ∨ x = '\t') (hs2 : ∀ x ∈ sp2, x = ' ' ∨ x = '\t')
    (hv : ∀ x ∈ vcs, plainChar x) :
    feed inc (c :: (krest ++ (sp1 ++ ('=' :: (sp2 ++ (vcs ++ ('\n' :: rest)))))))
        (lineSt sc none ln ps) g
      = feed inc rest (lineSt sc none (ln + 1) 1) g := by
  rw [feed_kv_none inc rest c krest sp1 sp2 vcs (lineSt sc none ln ps) g
    hc hk hs1 hs2 hv rfl rfl rfl]
  rfl

/-- An assignment line for a key not yet present in the active section:
the binding is appended. -/
lemma line_kv_fresh (inc : String → Config → Config) (rest : List Char)
    (c : Char) (krest sp1 sp2 vcs : List Char) (n sc : String) (s0 : Sec)
    (ln ps : Nat) (g : Config)
    (hc : plainChar c) (hk : ∀ x ∈ krest, plainChar x)
    (hs1 : ∀ x ∈ sp1, x = ' ' ∨ x = '\t') (hs2 : ∀ x ∈ sp2, x = ' ' ∨ x = '\t')
    (hv : ∀ x ∈ vcs, plainChar x)
    (hsec : lookupA g.sections n = some s0)
    (hfresh : lookupA s0.values (String.mk (c :: krest)) = none) :
    feed inc (c :: (krest ++ (sp1 ++ ('=' :: (sp2 ++ (vcs ++ ('\n' :: rest)))))))
        (lineSt sc (some n) ln ps) g
      = feed inc rest (lineSt sc (some n) (ln + 1) 1)
          { g with sections := updateSec g.sections n (fun s => { s with values := s.values ++ [(String.mk (c :: krest), String.mk vcs)] }) } := by
  rw [feed_kv_some_fresh inc rest c krest sp1 sp2 vcs n s0 (lineSt sc (some n) ln ps)
    g hc hk hs1 hs2 hv rfl rfl rfl rfl rfl hsec hfresh]
  rfl

/-- An assignment line for a key already present in the active section:
one diagnostic and the binding is replaced. -/
lemma line_kv_dup (inc : String → Config → Config) (rest : List Char)
    (c : Char) (krest sp1 sp2 vcs : List Char) (n sc : String) (s0 : Sec)
    (w : String) (ln ps : Nat) (g : Config)
    (hc : plainChar c) (hk : ∀ x ∈ krest, plainChar x)
    (hs1 : ∀ x ∈ sp1, x = ' ' ∨ x = '\t') (hs2 : ∀ x ∈ sp2, x = ' ' ∨ x = '\t')
    (hv : ∀ x ∈ vcs, plainChar x)
    (hsec : lookupA g.sections n = some s0)
    (hdup : lookupA s0.values (String.mk (c :: krest)) = some w) :
    feed inc (c :: (krest ++ (sp1 ++ ('=' :: (sp2 ++ (vcs ++ ('\n' :: rest)))))))
        (lineSt sc (some n) ln ps) g
      = feed inc rest (lineSt sc (some n) (ln + 1) 1)
          { (emitMsg
              { lineSt sc (some n) ln ps with act := PA.KEY,
                                              key := String.mk (c :: krest),
                                              pos := ps + 1 + krest.length + sp1.length }
              g ("Section \"" ++ sc ++ "\" key \"" ++ String.mk (c :: krest)
                  ++ "\" already exist.")) with
            sections := updateSec g.sections n (fun s => { s with values := storeVal s.values (String.mk (c :: krest)) (String.mk vcs) }) } := by
  rw [feed_kv_some_dup inc rest c krest sp1 sp2 vcs n s0 w (lineSt sc (some n) ln ps)
    g hc hk hs1 hs2 hv rfl rfl rfl rfl rfl hsec hdup]
  rfl

/-- Running off the end of the file from a line-start state: the stray
end-of-file iteration only scratches the local buffers; the configuration
survives unchanged. -/
lemma finish_lineSt (inc : String → Config → Config) (sc : String)
    (p : Option String) (ln ps : Nat) (g : Config) :
    finishRun (feed inc [] (lineSt sc p ln ps) g) = g := by
  simp [feed, finishRun, stepEOF, defaultStep, bump, lineSt]

lemma updateSec_single (p : String) (x : Sec) (f : Sec → Sec) :
    updateSec [(p, x)] p f = [(p, f x)] := by
  simp [updateSec]

lemma storeVal_head (k w v : String) (t : List (String × String)) :
    storeVal ((k, w) :: t) k v = (k, v) :: t := by
  simp [storeVal]

/-- `line_kv_none` with no spaces around `=`. -/
lemma line_kv_none_ns (inc : String → Config → Config) (rest : List Char)
    (c : Char) (krest vcs : List Char) (sc : String) (ln ps : Nat) (g : Config)
    (hc : plainChar c) (hk : ∀ x ∈ krest, plainChar x)
    (hv : ∀ x ∈ vcs, plainChar x) :
    feed inc (c :: (krest ++ ('=' :: (vcs ++ ('\n' :: rest)))))
        (lineSt sc none ln ps) g
      = feed inc rest (lineSt sc none (ln + 1) 1) g := by
  have h := line_kv_none inc rest c krest [] [] vcs sc ln ps g hc hk
    (by simp) (by simp) hv
  simpa using h

/-- `line_kv_fresh` with no spaces around `=`. -/
lemma line_kv_fresh_ns (inc : String → Config → Config) (rest : List Char)
    (c : Char) (krest vcs : List Char) (n sc : String) (s0 : Sec)
    (ln ps : Nat) (g : Config)
    (hc : plainChar c) (hk : ∀ x ∈ krest, plainChar x)
    (hv : ∀ x ∈ vcs, plainChar x)
    (hsec : lookupA g.sections n = some s0)
    (hfresh : lookupA s0.values (String.mk (c :: krest)) = none) :
    feed inc (c :: (krest ++ ('=' :: (vcs ++ ('\n' :: rest)))))
        (lineSt sc (some n) ln ps) g
      = feed inc rest (lineSt sc (some n) (ln + 1) 1)
          { g with sections := updateSec g.sections n (fun s => { s with values := s.values ++ [(String.mk (c :: krest), String.mk vcs)] }) } := by
  have h := line_kv_fresh inc rest c krest [] [] vcs n sc s0 ln ps g hc hk
    (by simp) (by simp) hv hsec hfresh
  simpa using h

/-- `line_kv_dup` with no spaces around `=`. -/
lemma line_kv_dup_ns (inc : String → Config → Config) (rest : List Char)
    (c : Char) (krest vcs : List Char) (n sc : String) (s0 : Sec) (w : String)
    (ln ps : Nat) (g : Config)
    (hc : plainChar c) (hk : ∀ x ∈ krest, plainChar x)
    (hv : ∀ x ∈ vcs, plainChar x)
    (hsec : lookupA g.sections n = some s0)
    (hdup : lookupA s0.values (String.mk (c :: krest)) = some w) :
    feed inc (c :: (krest ++ ('=' :: (vcs ++ ('\n' :: rest)))))
        (lineSt sc (some n) ln ps) g
      = feed inc rest (lineSt sc (some n) (ln + 1) 1)
          { (emitMsg
              { lineSt sc (some n) ln ps with act := PA.KEY,
                                              key := String.mk (c :: krest),
                                              pos := ps + 1 + krest.length }
              g ("Section \"" ++ sc ++ "\" key \"" ++ String.mk (c :: krest)
                  ++ "\" already exist.")) with
            sections := updateSec g.sections n (fun s => { s with values := storeVal s.values (String.mk (c :: krest)) (String.mk vcs) }) } := by
  have h := line_kv_dup inc rest c krest [] [] vcs n sc s0 w ln ps g hc hk
    (by simp) (by simp) hv hsec hdup
  simpa using h

/-- C2 (amended): a redefinition of a key inside one section emits one
diagnostic, and the model afterwards maps the key to the value of the
later assignment — the newline commit overwrites the first-seen value. -/
theorem c2_amended (fuel : Nat) (a k v1 v2 : String)
    (ha : ∀ x ∈ a.data, identChar x) (hk : ∀ x ∈ k.data, identChar x)
    (hv1 : ∀ x ∈ v1.data, identChar x) (hv2 : ∀ x ∈ v2.data, identChar x)
    (hk0 : k.data ≠ []) :
    (loadFuel [("f", "[" ++ a ++ "]\n" ++ k ++ "=" ++ v1 ++ "\n" ++ k ++ "=" ++ v2
        ++ "\n")] (fuel + 1) "f" initConfig).sections = [(a, ⟨[], [], [(k, v2)]⟩)]
    ∧ (loadFuel [("f", "[" ++ a ++ "]\n" ++ k ++ "=" ++ v1 ++ "\n" ++ k ++ "=" ++ v2
        ++ "\n")] (fuel + 1) "f" initConfig).msgs.length = 1 := by
  rcases hkd : k.data with _ | ⟨c, krest⟩
  · exact absurd hkd hk0
  have hk' : ∀ x ∈ c :: krest, plainChar x := by
    rw [hkd] at hk; exact fun x hx => ident_plain (hk x hx)
  have hc : plainChar c := hk' c (List.mem_cons_self c krest)
  have hkr : ∀ x ∈ krest, plainChar x := fun x hx => hk' x (List.mem_cons_of_mem c hx)
  have ha' : ∀ x ∈ a.data, plainChar x := fun x hx => ident_plain (ha x hx)
  have hv1' : ∀ x ∈ v1.data, plainChar x := fun x hx => ident_plain (hv1 x hx)
  have hv2' : ∀ x ∈ v2.data, plainChar x := fun x hx => ident_plain (hv2 x hx)
  have hkmk : String.mk (c :: krest) = k := by rw [← hkd]
  rw [loadFuel_some _ _ _ _ _ (lookupA_single _ _)]
  have hcontent : ("[" ++ a ++ "]\n" ++ k ++ "=" ++ v1 ++ "\n" ++ k ++ "=" ++ v2
      ++ "\n").data
      = '[' :: (a.data ++ (']' :: '\n' :: (c :: (krest ++ ('=' :: (v1.data
          ++ ('\n' :: (c :: (krest ++ ('=' :: (v2.data
          ++ ('\n' :: ([] : List Char))))))))))))) := by
    simp only [data_append, hkd, List.append_assoc, List.cons_append, List.nil_append]
  rw [hcontent, initMSt_lineSt]
  rw [line_header_fresh _ _ a.data "" none 1 0 { initConfig with current_file := "f" }
    ha' rfl]
  simp only [initConfig, mk_data, List.nil_append]
  rw [line_kv_fresh_ns _ _ c krest v1.data a a ⟨[], [], []⟩ _ _
    ⟨[(a, ⟨[], [], []⟩)], "f", "", []⟩ hc hkr hv1' (lookupA_single _ _) rfl]
  rw [updateSec_single]
  simp only [hkmk, mk_data, List.nil_append]
  rw [line_kv_dup_ns _ _ c krest v2.data a a ⟨[], [], [(k, v1)]⟩ v1 _ _
    ⟨[(a, ⟨[], [], [(k, v1)]⟩)], "f", "", []⟩ hc hkr hv2' (lookupA_single _ _)
    (by rw [hkmk]; exact lookupA_single _ _)]
  rw [updateSec_single]
  simp only [hkmk, mk_data]
  rw [storeVal_head]
  rw [finish_lineSt]
  constructor
  · rfl
  · rfl

theorem c2_amended_witness :
    (loadFuel [("f", "[" ++ "a" ++ "]\n" ++ "x" ++ "=" ++ "1" ++ "\n" ++ "x" ++ "="
        ++ "2" ++ "\n")] 1 "f" initConfig).sections = [("a", ⟨[], [], [("x", "2")]⟩)]
    ∧ (loadFuel [("f", "[" ++ "a" ++ "]\n" ++ "x" ++ "=" ++ "1" ++ "\n" ++ "x" ++ "="
        ++ "2" ++ "\n")] 1 "f" initConfig).msgs.length = 1 :=
  c2_amended 0 "a" "x" "1" "2" (by decide) (by decide) (by decide) (by decide)
    (by decide)

/-- C5: a duplicate section header emits exactly one diagnostic, the
first-seen section record survives untouched, and the assignment line in
the duplicate block has no effect; the first block's binding is what
`getString` returns. -/
theorem c5_duplicate_section (fuel : Nat) (a k1 v1 k2 v2 : String)
    (ha : ∀ x ∈ a.data, identChar x) (hk1 : ∀ x ∈ k1.data, identChar x)
    (hv1 : ∀ x ∈ v1.data, identChar x) (hk2 : ∀ x ∈ k2.data, identChar x)
    (hv2 : ∀ x ∈ v2.data, identChar x)
    (hk10 : k1.data ≠ []) (hk20 : k2.data ≠ []) :
    (loadFuel [("f", "[" ++ a ++ "]\n" ++ k1 ++ "=" ++ v1 ++ "\n[" ++ a ++ "]\n"
        ++ k2 ++ "=" ++ v2 ++ "\n")] (fuel + 1) "f" initConfig).sections
      = [(a, ⟨[], [], [(k1, v1)]⟩)]
    ∧ (loadFuel [("f", "[" ++ a ++ "]\n" ++ k1 ++ "=" ++ v1 ++ "\n[" ++ a ++ "]\n"
        ++ k2 ++ "=" ++ v2 ++ "\n")] (fuel + 1) "f" initConfig).msgs.length = 1
    ∧ getString (loadFuel [("f", "[" ++ a ++ "]\n" ++ k1 ++ "=" ++ v1 ++ "\n[" ++ a
        ++ "]\n" ++ k2 ++ "=" ++ v2 ++ "\n")] (fuel + 1) "f" initConfig) a k1 ""
      = v1 := by
  rcases hkd1 : k1.data with _ | ⟨c1, kr1⟩
  · exact absurd hkd1 hk10
  rcases hkd2 : k2.data with _ | ⟨c2, kr2⟩
  · exact absurd hkd2 hk20
  have hk1' : ∀ x ∈ c1 :: kr1, plainChar x := by
    rw [hkd1] at hk1; exact fun x hx => ident_plain (hk1 x hx)
  have hc1 : plainChar c1 := hk1' c1 (List.mem_cons_self c1 kr1)
  have hkr1 : ∀ x ∈ kr1, plainChar x := fun x hx => hk1' x (List.mem_cons_of_mem c1 hx)
  have hk2' : ∀ x ∈ c2 :: kr2, plainChar x := by
    rw [hkd2] at hk2; exact fun x hx => ident_plain (hk2 x hx)
  have hc2 : plainChar c2 := hk2' c2 (List.mem_cons_self c2 kr2)
  have hkr2 : ∀ x ∈ kr2, plainChar x := fun x hx => hk2' x (List.mem_cons_of_mem c2 hx)
  have ha' : ∀ x ∈ a.data, plainChar x := fun x hx => ident_plain (ha x hx)
  have hv1' : ∀ x ∈ v1.data, plainChar x := fun x hx => ident_plain (hv1 x hx)
  have hv2' : ∀ x ∈ v2.data, plainChar x := fun x hx => ident_plain (hv2 x hx)
  have hkmk1 : String.mk (c1 :: kr1) = k1 := by rw [← hkd1]
  rw [loadFuel_some _ _ _ _ _ (lookupA_single _ _)]
  have hcontent : ("[" ++ a ++ "]\n" ++ k1 ++ "=" ++ v1 ++ "\n[" ++ a ++ "]\n"
      ++ k2 ++ "=" ++ v2 ++ "\n").data
      = '[' :: (a.data ++ (']' :: '\n' :: (c1 :: (kr1 ++ ('=' :: (v1.data
          ++ ('\n' :: ('[' :: (a.data ++ (']' :: '\n' :: (c2 :: (kr2
          ++ ('=' :: (v2.data ++ ('\n' :: ([] : List Char)))))))))))))))) := by
    simp only [data_append, hkd1, hkd2, List.append_assoc, List.cons_append,
      List.nil_append]
  rw [hcontent, initMSt_lineSt]
  rw [line_header_fresh _ _ a.data "" none 1 0 { initConfig with current_file := "f" }
    ha' rfl]
  simp only [initConfig, mk_data, List.nil_append]
  rw [line_kv_fresh_ns _ _ c1 kr1 v1.data a a ⟨[], [], []⟩ _ _
    ⟨[(a, ⟨[], [], []⟩)], "f", "", []⟩ hc1 hkr1 hv1' (lookupA_single _ _) rfl]
  rw [updateSec_single]
  simp only [hkmk1, mk_data, List.nil_append]
  rw [line_header_dup _ _ a.data a (some a) _ _
    ⟨[(a, ⟨[], [], [(k1, v1)]⟩)], "f", "", []⟩ ⟨[], [], [(k1, v1)]⟩ ha'
    (by rw [mk_data]; exact lookupA_single _ _)]
  simp only [mk_data]
  rw [line_kv_none_ns _ _ c2 kr2 v2.data a _ _ _ hc2 hkr2 hv2']
  rw [finish_lineSt]
  refine ⟨rfl, rfl, ?_⟩
  simp [getString, lookupA, emitMsg]

theorem c5_duplicate_section_witness :
    (loadFuel [("f", "[a]\nx=1\n[a]\nx=2\n")] 1 "f" initConfig).sections
      = [("a", ⟨[], [], [("x", "1")]⟩)]
    ∧ (loadFuel [("f", "[a]\nx=1\n[a]\nx=2\n")] 1 "f" initConfig).msgs.length = 1
    ∧ getString (loadFuel [("f", "[a]\nx=1\n[a]\nx=2\n")] 1 "f" initConfig)
        "a" "x" "" = "1" := by
  have h := c5_duplicate_section 0 "a" "x" "1" "x" "2" (by decide) (by decide)
    (by decide) (by decide) (by decide) (by decide) (by decide)
  simpa using h

/-! ## Lookup engine: claims C1 and C9 -/

lemma getValueFromInheritanceGo_eq (g : Config) (k : String) :
    ∀ l : List String,
      getValueFromInheritanceGo g k l = (firstBaseBindingGo g k l).getD "" := by
  intro l
  induction l with
  | nil => rfl
  | cons b bs ih =>
      simp only [getValueFromInheritanceGo, firstBaseBindingGo]
      cases h1 : lookupA g.sections b with
      | none => simp [ih]
      | some bsec =>
          cases h2 : lookupA bsec.values k with
          | none => simp [h2, ih]
          | some v => simp [h2]

/-- C1 (amended): `getString` returns the default when the section is
unknown, the section's own binding when present, and otherwise the binding
from the first base in the inheritance list that exists and binds the key
— but only when that inherited binding is non-empty; an empty inherited
binding yields the default instead of the bound value. -/
theorem c1_amended (g : Config) (sname kname dflt : String) :
    getString g sname kname dflt = amendedGetString g sname kname dflt := by
  simp only [getString, amendedGetString, getValueFromInheritance,
    getValueFromInheritanceGo_eq]
  cases hs : lookupA g.sections sname with
  | none => simp
  | some s =>
      cases hk : lookupA s.values kname with
      | some v => simp [hk]
      | none =>
          cases h : firstBaseBindingGo g kname s.inheritances with
          | none => simp [hk, h]
          | some v => simp [hk, h]

/-- C1 (counterexample): in the model loaded from `[b]\nk=\n[s] : b\n` the
first (and only) base of `s` binds `k` to the empty string; the claimed
rule returns that empty binding, but `getString` returns the default. -/
theorem c1_counterexample :
    getString (loadFuel [("f", "[b]\nk=\n[s] : b\n")] 1 "f" initConfig) "s" "k" "d" = "d"
    ∧ claimGetString (loadFuel [("f", "[b]\nk=\n[s] : b\n")] 1 "f" initConfig) "s" "k" "d"
        = "" := by
  decide

/-! ## Open failure: claim C7 -/

/-- C7 (amended): when the file cannot be opened, `load` reports the
failure and leaves the section map untouched, but `_current_file` has
already been overwritten with the failing path before the open is
attempted — the top-level state is not left fully unchanged. -/
theorem c7_amended (fs : List (String × String)) (fuel : Nat) (path : String)
    (g : Config) (h : lookupA fs path = none) :
    loadFuel fs (fuel + 1) path g
      = { g with current_file := path,
                 msgs := g.msgs ++ ["Cannot open file \"" ++ path ++ "\"."] } := by
  simp [loadFuel, h]

theorem c7_amended_witness :
    loadFuel [] 1 "missing" { initConfig with current_file := "old" }
      = { initConfig with current_file := "missing",
                          msgs := ["Cannot open file \"missing\"."] } :=
  c7_amended [] 0 "missing" { initConfig with current_file := "old" } rfl

/-- C7 (counterexample): a failing `load` does leave the sections map
unchanged, but `current_file` becomes the failed path instead of staying
what it was. -/
theorem c7_counterexample :
    (loadFuel [] 1 "missing" { initConfig with current_file := "old" }).sections = []
    ∧ (loadFuel [] 1 "missing" { initConfig with current_file := "old" }).current_file
        = "missing"
    ∧ (loadFuel [] 1 "missing" { initConfig with current_file := "old" }).current_file
        ≠ "old" := by
  decide

/-! ## Empty stored values: claim C9 -/

/-- C9: a key stored with the empty string behaves like an absent key for
the typed getters — `get` returns the default without coercion and
`getArray` returns the empty vector — while `hasKey` still reports the key
as present. -/
theorem c9_empty_value (g : Config) (sname kname : String) (d : Int) (s : Sec)
    (hs : lookupA g.sections sname = some s) (hk : lookupA s.values kname = some "") :
    getIntD g sname kname d = some d
    ∧ getArrayInt g sname kname = some []
    ∧ hasKey g sname kname = true := by
  have hstr : getString g sname kname "" = "" := by simp [getString, hs, hk]
  refine ⟨?_, ?_, ?_⟩
  · simp [getIntD, hstr]
  · simp [getArrayInt, hstr]
  · simp [hasKey, hs, hk]

theorem c9_empty_value_witness :
    getIntD ⟨[("s", ⟨[], [], [("k", "")]⟩)], "", "", []⟩ "s" "k" 7 = some 7
    ∧ getArrayInt ⟨[("s", ⟨[], [], [("k", "")]⟩)], "", "", []⟩ "s" "k" = some []
    ∧ hasKey ⟨[("s", ⟨[], [], [("k", "")]⟩)], "", "", []⟩ "s" "k" = true :=
  c9_empty_value _ "s" "k" 7 ⟨[], [], [("k", "")]⟩ (by decide) (by decide)

/-! ## Duplicate keys: claim C2 (counterexample part) -/

/-- C2 (counterexample): after `[a]\nx=1\nx=2\n` the key `x` holds the
later value `2`, not the first-seen `1` — the newline commit overwrites
the retained binding even though the redefinition diagnostic fired. -/
theorem c2_counterexample :
    getString (loadFuel [("f", "[a]\nx=1\nx=2\n")] 1 "f" initConfig) "a" "x" "" = "2"
    ∧ getString (loadFuel [("f", "[a]\nx=1\nx=2\n")] 1 "f" initConfig) "a" "x" "" ≠ "1"
    ∧ (loadFuel [("f", "[a]\nx=1\nx=2\n")] 1 "f" initConfig).msgs.length = 1 := by
  decide

/-! ## Comment invisibility: claim C3 (counterexample part) -/

/-- C3 (counterexample): deleting the comment region `;c` from
`[a]\nk=1;c\n` changes the parsed model: with the comment, the `;` fires
before the newline commit, so `k` keeps the empty value inserted at `=`;
without it, `k` is bound to `1`. -/
theorem c3_counterexample :
    (loadFuel [("f", "[a]\nk=1;c\n")] 1 "f" initConfig).sections
        = [("a", ⟨[], [], [("k", "")]⟩)]
    ∧ (loadFuel [("g", "[a]\nk=1\n")] 1 "g" initConfig).sections
        = [("a", ⟨[], [], [("k", "1")]⟩)] := by
  decide

/-! ## Save/load round trip: claim C4 (counterexample part) -/

/-- C4 (counterexample): the model loaded from `[s]\nk = \"a b\"\n` is
canonical in the claim's sense (single-line quoted value, no comma,
newline or quote in the value), yet saving and reloading turns the value
`a b` into `ab`: `save` writes the value bare and `load` silently drops
the interior space. -/
theorem c4_counterexample :
    getString (loadFuel [("f", "[s]\nk = \"a b\"\n")] 1 "f" initConfig) "s" "k" "" = "a b"
    ∧ getString
        (loadFuel
          [("g", save (loadFuel [("f", "[s]\nk = \"a b\"\n")] 1 "f" initConfig))]
          1 "g" initConfig) "s" "k" "" = "ab" := by
  decide

/-! ## Ignore-spaces flag: claim C6 (counterexample part) -/

/-- C6 (counterexample): in `[a]\nk e=1\n` an identifier character `k` has
been consumed on the line, so per the claim the following space should
drive the parser to `ERROR` with a diagnostic; instead no diagnostic is
produced and the space is silently dropped, merging the key to `ke`. -/
theorem c6_counterexample :
    (loadFuel [("f", "[a]\nk e=1\n")] 1 "f" initConfig).msgs = []
    ∧ (loadFuel [("f", "[a]\nk e=1\n")] 1 "f" initConfig).sections
        = [("a", ⟨[], [], [("ke", "1")]⟩)] := by
  decide

/-! ## Ignore-spaces flag (C6) and getArray (C8) -/

/-- C6 (amended): the ignore-spaces flag is re-armed by every newline and
by `]`, and is cleared only when `[` opens a section header — consuming an
identifier character never clears it. A space or tab read in the states
`SECTION`, `INHERITANCE`, `ATTRIBUTE`, `KEY` or `VALUE` is tolerated
exactly when the flag is set; when the flag is clear it drives the state
to `ERROR` with the diagnostic "Space in wrong place". -/
theorem c6_amended (inc : String → Config → Config) (m : MSt) (g : Config) :
    ((stepChar inc '\n' m g).1.ign = true)
    ∧ (m.act = PA.SECTION → (stepChar inc ']' m g).1.ign = true)
    ∧ (m.act = PA.NEW_LINE → (stepChar inc '[' m g).1.ign = false)
    ∧ (∀ c : Char, plainChar c → (stepChar inc c m g).1.ign = m.ign)
    ∧ ((m.act = PA.SECTION ∨ m.act = PA.INHERITANCE ∨ m.act = PA.ATTRIBUTE ∨
          m.act = PA.KEY ∨ m.act = PA.VALUE) → m.ign = false →
        (stepChar inc ' ' m g).1.act = PA.ERROR
        ∧ (stepChar inc ' ' m g).2.msgs
            = g.msgs ++ [getErrorLineString m ++ "Space in wrong place"])
    ∧ ((m.act = PA.SECTION ∨ m.act = PA.INHERITANCE ∨ m.act = PA.ATTRIBUTE ∨
          m.act = PA.KEY ∨ m.act = PA.VALUE) → m.ign = true →
        stepChar inc ' ' m g = ({ m with pos := m.pos + 1 }, g)) := by
  obtain ⟨sec, inh, attr, key, val, pf, ps, ptr, act, line, pos, ign⟩ := m
  refine ⟨rfl, ?_, ?_, ?_, ?_, ?_⟩
  · intro hact
    replace hact : act = PA.SECTION := hact
    subst hact
    rw [stepChar_rbr]
    dsimp only [rbracketStep]
    split <;> rfl
  · intro hact
    replace hact : act = PA.NEW_LINE := hact
    subst hact
    rfl
  · intro c hc
    rw [stepChar_plain inc c _ g hc]
    cases act <;> rfl
  · intro hact hign
    replace hign : ign = false := hign
    subst hign
    rcases hact with h | h | h | h | h <;>
      (replace h : act = _ := h; subst h; rw [stepChar_spc];
       dsimp only [spaceStep];
       exact ⟨rfl, rfl⟩)
  · intro hact hign
    replace hign : ign = true := hign
    subst hign
    rcases hact with h | h | h | h | h <;>
      (replace h : act = _ := h; subst h; rw [stepChar_spc];
       dsimp only [spaceStep];
       rfl)

/-- C6 witness: with the flag clear in state `KEY` a space errors with the
diagnostic; `[` from `NEW_LINE` clears the armed flag. -/
theorem c6_amended_witness :
    (stepChar (fun _ g => g) ' '
        ⟨"", "", "", "", "", "", "", none, PA.KEY, 1, 5, false⟩ initConfig).1.act
      = PA.ERROR
    ∧ (stepChar (fun _ g => g) ' '
        ⟨"", "", "", "", "", "", "", none, PA.KEY, 1, 5, false⟩ initConfig).2.msgs
      = initConfig.msgs
          ++ [getErrorLineString ⟨"", "", "", "", "", "", "", none, PA.KEY, 1, 5, false⟩
                ++ "Space in wrong place"]
    ∧ (stepChar (fun _ g => g) '['
        ⟨"", "", "", "", "", "", "", none, PA.NEW_LINE, 1, 0, true⟩ initConfig).1.ign
      = false := by
  refine ⟨?_, ?_, ?_⟩
  · exact ((c6_amended (fun _ g => g) _ initConfig).2.2.2.2.1
      (Or.inr (Or.inr (Or.inr (Or.inl rfl)))) rfl).1
  · exact ((c6_amended (fun _ g => g) _ initConfig).2.2.2.2.1
      (Or.inr (Or.inr (Or.inr (Or.inl rfl)))) rfl).2
  · exact (c6_amended (fun _ g => g) _ initConfig).2.2.1 rfl

/-- Spec-side coercion of every split segment, in order; `none` when any
segment fails the scalar rule. -/
def coerceAll : List String → Option (List Int)
  | [] => some []
  | s :: rest =>
      match stoiModel s, coerceAll rest with
      | some v, some vs => some (v :: vs)
      | _, _ => none

/-- Prepend a pending prefix to the first split segment. -/
def prefixHead (p : String) : List String → List String
  | [] => []
  | h :: t => (p ++ h) :: t

lemma splitCommas_ne_nil : ∀ cs : List Char, splitCommas cs ≠ [] := by
  intro cs
  cases cs with
  | nil => simp [splitCommas]
  | cons c cs =>
      by_cases e : c = ','
      · simp [splitCommas, e]
      · simp only [splitCommas, if_neg e]
        cases splitCommas cs <;> simp

lemma prefixHead_empty (h : String) (t : List String) :
    prefixHead "" (h :: t) = h :: t := rfl

lemma push_append (num h : String) (c : Char) :
    num.push c ++ h = num ++ String.mk (c :: h.data) :=
  congrArg String.mk (by simp [push_data])

lemma append_empty_str (s : String) : s ++ "" = s :=
  congrArg String.mk (List.append_nil s.data)

lemma getArrayIntGo_spec : ∀ (cs : List Char) (num : String) (acc : List Int),
    getArrayIntGo cs num acc
      = match coerceAll (prefixHead num (splitCommas cs)) with
        | some vs => some (acc ++ vs)
        | none => none := by
  intro cs
  induction cs with
  | nil =>
      intro num acc
      simp only [getArrayIntGo, splitCommas, prefixHead, append_empty_str, coerceAll]
      cases stoiModel num <;> simp
  | cons c cs ih =>
      intro num acc
      by_cases e : c = ','
      · subst e
        simp only [getArrayIntGo, if_pos rfl, splitCommas, prefixHead,
          append_empty_str, coerceAll]
        cases hs : stoiModel num with
        | none => simp
        | some v =>
            simp only []
            rw [ih "" (acc ++ [v])]
            obtain ⟨h, t, ht⟩ : ∃ h t, splitCommas cs = h :: t := by
              cases hsc : splitCommas cs with
              | nil => exact absurd hsc (splitCommas_ne_nil cs)
              | cons h t => exact ⟨h, t, rfl⟩
            rw [ht, prefixHead_empty]
            simp only [coerceAll]
            cases stoiModel h <;> cases coerceAll t <;> simp
      · simp only [getArrayIntGo, if_neg e, splitCommas]
        rw [ih (num.push c) acc]
        obtain ⟨h, t, ht⟩ : ∃ h t, splitCommas cs = h :: t := by
          cases hsc : splitCommas cs with
          | nil => exact absurd hsc (splitCommas_ne_nil cs)
          | cons h t => exact ⟨h, t, rfl⟩
        rw [ht]
        simp only [prefixHead, push_append]

/-- C8: for a non-empty stored raw value, `getArray` splits the raw string
on literal commas, coerces each untrimmed segment in order by the scalar
rule, and returns the segments in order, the last segment included without
a trailing comma; in particular `[t]\narr = 1,2,3\n` yields `[1, 2, 3]`. -/
theorem c8_getArray :
    (∀ (g : Config) (sname kname : String), getString g sname kname "" ≠ "" →
      getArrayInt g sname kname
        = coerceAll (splitCommas (getString g sname kname "").data))
    ∧ getArrayInt (loadFuel [("f", "[t]\narr = 1,2,3\n")] 1 "f" initConfig) "t" "arr"
        = some [1, 2, 3] := by
  constructor
  · intro g sname kname h
    simp only [getArrayInt, if_pos h, ne_eq]
    rw [getArrayIntGo_spec]
    obtain ⟨hh, t, ht⟩ : ∃ hh t,
        splitCommas (getString g sname kname "").data = hh :: t := by
      cases hsc : splitCommas (getString g sname kname "").data with
      | nil => exact absurd hsc (splitCommas_ne_nil _)
      | cons hh t => exact ⟨hh, t, rfl⟩
    rw [ht, prefixHead_empty]
    cases coerceAll (hh :: t) <;> simp
  · decide

/-- C8 witness: the split law applied to the loaded S4 model. -/
theorem c8_getArray_witness :
    getArrayInt (loadFuel [("f", "[t]\narr = 1,2,3\n")] 1 "f" initConfig) "t" "arr"
      = coerceAll (splitCommas (getString (loadFuel [("f", "[t]\narr = 1,2,3\n")] 1
          "f" initConfig) "t" "arr" "").data) :=
  c8_getArray.1 (loadFuel [("f", "[t]\narr = 1,2,3\n")] 1 "f" initConfig) "t" "arr"
    (by decide)

/-! ## Comment erasure (C3 amended) -/

lemma data_mk (l : List Char) : (String.mk l).data = l := rfl

/-- `;` enters the line comment from any state except `STRING_VALUE`. -/
lemma stepChar_semi_enter (inc : String → Config → Config) (m : MSt) (g : Config)
    (hact : m.act ≠ PA.STRING_VALUE) :
    stepChar inc ';' m g = ({ m with act := PA.COMMENT, pos := m.pos + 1 }, g) := by
  obtain ⟨sec, inh, attr, key, val, pf, ps, ptr, act, line, pos, ign⟩ := m
  replace hact : act ≠ PA.STRING_VALUE := hact
  cases act <;> first
    | exact absurd rfl hact
    | rfl

/-- A newline in the `NEW_LINE` state only starts the next line. -/
lemma stepChar_nl_newline (inc : String → Config → Config) (m : MSt) (g : Config)
    (hact : m.act = PA.NEW_LINE) :
    stepChar inc '\n' m g
      = ({ m with act := PA.NEW_LINE, line := m.line + 1, pos := 1, ign := true }, g) := by
  obtain ⟨sec, inh, attr, key, val, pf, ps, ptr, act, line, pos, ign⟩ := m
  replace hact : act = PA.NEW_LINE := hact
  subst hact
  rfl

/-- A newline ends a `;` comment and starts the next line. -/
lemma stepChar_nl_comment (inc : String → Config → Config) (m : MSt) (g : Config)
    (hact : m.act = PA.COMMENT) :
    stepChar inc '\n' m g
      = ({ m with act := PA.NEW_LINE, line := m.line + 1, pos := 1, ign := true }, g) := by
  obtain ⟨sec, inh, attr, key, val, pf, ps, ptr, act, line, pos, ign⟩ := m
  replace hact : act = PA.COMMENT := hact
  subst hact
  rfl

/-- Deleting a full-line `;` comment whose body contains neither `|` nor a
newline leaves the run of the machine unchanged. -/
lemma feed_comment_erase (inc : String → Config → Config) (p cs q : List Char)
    (g : Config) (hcs : ∀ c ∈ cs, c ≠ '|' ∧ c ≠ '\n') (hp : ¬ '\\' ∈ p)
    (hact : (feed inc p initMSt g).m.act = PA.NEW_LINE) :
    feed inc (p ++ (';' :: (cs ++ ('\n' :: q)))) initMSt g
      = feed inc (p ++ ('\n' :: q)) initMSt g := by
  rw [feed_append inc p _ initMSt g hp, feed_append inc p _ initMSt g hp]
  rw [feed_cons_step inc ';' _ _ _ (by rintro ⟨h1, h2⟩; exact absurd h1 (by decide))]
  rw [stepChar_semi_enter inc _ _ (by rw [hact]; decide)]
  dsimp only
  rw [feed_run_comment inc _ cs _ _ hcs rfl]
  rw [feed_cons_step inc '\n' _ _ _ (by simp)]
  rw [stepChar_nl_comment inc _ _ rfl]
  rw [feed_cons_step inc '\n' _ _ _ (by rintro ⟨h1, h2⟩; exact absurd h1 (by decide))]
  rw [stepChar_nl_newline inc _ _ hact]

/-- C3 (amended): general comment invisibility fails, but a `;` comment
that starts at the beginning of a line (the parser being in `NEW_LINE`
state there) and contains neither `|` nor a newline can be deleted — `;`
through end of line — without changing the parse result at all. -/
theorem c3_amended (p cs q : List Char)
    (hcs : ∀ c ∈ cs, c ≠ '|' ∧ c ≠ '\n') (hp : ¬ '\\' ∈ p)
    (hact : (feed (fun _ g => g) p initMSt
        { initConfig with current_file := "f" }).m.act = PA.NEW_LINE) :
    loadFuel [("f", String.mk (p ++ (';' :: (cs ++ ('\n' :: q)))))] 1 "f" initConfig
      = loadFuel [("f", String.mk (p ++ ('\n' :: q)))] 1 "f" initConfig := by
  rw [loadFuel_some _ _ _ _ _ (lookupA_single _ _),
    loadFuel_some _ _ _ _ _ (lookupA_single _ _)]
  have hinc1 : (fun p2 g2 =>
      let f := g2.current_file
      let g3 := loadFuel [("f", String.mk (p ++ (';' :: (cs ++ ('\n' :: q)))))] 0
        (g2.base_path ++ p2) g2
      { g3 with current_file := f }) = (fun (_ : String) (g2 : Config) => g2) := by
    funext x y
    rfl
  have hinc2 : (fun p2 g2 =>
      let f := g2.current_file
      let g3 := loadFuel [("f", String.mk (p ++ ('\n' :: q)))] 0
        (g2.base_path ++ p2) g2
      { g3 with current_file := f }) = (fun (_ : String) (g2 : Config) => g2) := by
    funext x y
    rfl
  rw [hinc1, hinc2, data_mk, data_mk]
  rw [feed_comment_erase _ p cs q _ hcs hp hact]

theorem c3_amended_witness :
    loadFuel [("f", String.mk ([] ++ (';' :: (['c'] ++ ('\n' :: ([] : List Char))))))]
        1 "f" initConfig
      = loadFuel [("f", String.mk ([] ++ ('\n' :: ([] : List Char))))] 1 "f"
          initConfig :=
  c3_amended [] ['c'] [] (by decide) (by decide) rfl


/-! ### Association-list algebra for the round-trip proof -/

lemma lookupA_updateSec (f : Sec → Sec) (n x : String) :
    ∀ l : List (String × Sec),
      lookupA (updateSec l n f) x
        = if x = n then (lookupA l n).map f else lookupA l x := by
  intro l
  induction l with
  | nil => simp [updateSec, lookupA]
  | cons p rest ih =>
      obtain ⟨n0, s0⟩ := p
      simp only [updateSec, lookupA]
      by_cases e : n0 = n
      · subst e
        simp only [if_pos rfl]
        by_cases e2 : n0 = x
        · subst e2
          simp [lookupA]
        · have e3 : ¬ x = n0 := fun h => e2 h.symm
          simp [lookupA, e2, e3]
      · simp only [if_neg e]
        by_cases e2 : n0 = x
        · subst e2
          have e4 : ¬ n0 = n := fun h => e h
          simp [lookupA, e4]
        · simp [lookupA, e, e2, ih]

lemma map_fst_updateSec (f : Sec → Sec) (n : String) :
    ∀ l : List (String × Sec), (updateSec l n f).map Prod.fst = l.map Prod.fst := by
  intro l
  induction l with
  | nil => rfl
  | cons p rest ih =>
      obtain ⟨n0, s0⟩ := p
      by_cases e : n0 = n <;> simp [updateSec, e, ih]

lemma lookupA_none_iff {α : Type} (k : String) :
    ∀ l : List (String × α), lookupA l k = none ↔ ¬ k ∈ l.map Prod.fst := by
  intro l
  induction l with
  | nil => simp [lookupA]
  | cons p rest ih =>
      obtain ⟨n0, v0⟩ := p
      simp only [lookupA, List.map_cons, List.mem_cons]
      by_cases e : n0 = k
      · subst e
        simp
      · have e2 : ¬ k = n0 := fun h => e h.symm
        simp [e, e2, ih]

lemma lookupA_isSome_iff {α : Type} (k : String) (l : List (String × α)) :
    (lookupA l k).isSome = true ↔ k ∈ l.map Prod.fst := by
  rw [Option.isSome_iff_ne_none]
  constructor
  · intro h
    by_contra hm
    exact h ((lookupA_none_iff k l).mpr hm)
  · intro h hn
    exact ((lookupA_none_iff k l).mp hn) h

lemma lookupA_append {α : Type} (k : String) :
    ∀ l1 l2 : List (String × α),
      lookupA (l1 ++ l2) k
        = match lookupA l1 k with
          | some v => some v
          | none => lookupA l2 k := by
  intro l1 l2
  induction l1 with
  | nil => simp [lookupA]
  | cons p rest ih =>
      by_cases e : p.1 = k
      · obtain ⟨n0, v0⟩ := p
        simp only at e
        subst e
        simp [lookupA]
      · obtain ⟨n0, v0⟩ := p
        simp only at e
        simp [lookupA, e, ih]

lemma updateSec_append_last (n : String) (x : Sec) (f : Sec → Sec) :
    ∀ l : List (String × Sec), lookupA l n = none →
      updateSec (l ++ [(n, x)]) n f = l ++ [(n, f x)] := by
  intro l
  induction l with
  | nil => simp [updateSec]
  | cons p rest ih =>
      intro h
      obtain ⟨n0, v0⟩ := p
      by_cases e : n0 = n
      · subst e
        simp [lookupA] at h
      · simp only [lookupA, if_neg e] at h
        simp [updateSec, e, ih h]

/-- Extend a named section's inheritance list. -/
def updInh (l : List (String × Sec)) (n : String) (xs : List String) :
    List (String × Sec) :=
  updateSec l n (fun s => { s with inheritances := s.inheritances ++ xs })

/-- Extend a named section's attribute list. -/
def updAttr (l : List (String × Sec)) (n : String) (xs : List String) :
    List (String × Sec) :=
  updateSec l n (fun s => { s with attributes := s.attributes ++ xs })

/-- Extend a named section's value list. -/
def updVals (l : List (String × Sec)) (n : String) (xs : List (String × String)) :
    List (String × Sec) :=
  updateSec l n (fun s => { s with values := s.values ++ xs })

lemma updateSec_id (n : String) : ∀ l : List (String × Sec),
    updateSec l n (fun s => s) = l := by
  intro l
  induction l with
  | nil => rfl
  | cons p rest ih =>
      obtain ⟨n0, s0⟩ := p
      by_cases e : n0 = n <;> simp [updateSec, e, ih]

lemma updInh_nil (l : List (String × Sec)) (n : String) : updInh l n [] = l := by
  unfold updInh
  have : (fun s : Sec => { s with inheritances := s.inheritances ++ [] })
      = (fun s : Sec => s) := by
    funext s
    simp
  rw [this, updateSec_id]

lemma updAttr_nil (l : List (String × Sec)) (n : String) : updAttr l n [] = l := by
  unfold updAttr
  have : (fun s : Sec => { s with attributes := s.attributes ++ [] })
      = (fun s : Sec => s) := by
    funext s
    simp
  rw [this, updateSec_id]

lemma updVals_nil (l : List (String × Sec)) (n : String) : updVals l n [] = l := by
  unfold updVals
  have : (fun s : Sec => { s with values := s.values ++ [] })
      = (fun s : Sec => s) := by
    funext s
    simp
  rw [this, updateSec_id]

lemma updInh_updInh (l : List (String × Sec)) (n : String) (xs ys : List String) :
    updInh (updInh l n xs) n ys = updInh l n (xs ++ ys) := by
  unfold updInh
  rw [updateSec_comp]
  congr 1
  funext s
  simp

lemma updAttr_updAttr (l : List (String × Sec)) (n : String) (xs ys : List String) :
    updAttr (updAttr l n xs) n ys = updAttr l n (xs ++ ys) := by
  unfold updAttr
  rw [updateSec_comp]
  congr 1
  funext s
  simp

lemma updVals_updVals (l : List (String × Sec)) (n : String)
    (xs ys : List (String × String)) :
    updVals (updVals l n xs) n ys = updVals l n (xs ++ ys) := by
  unfold updVals
  rw [updateSec_comp]
  congr 1
  funext s
  simp

/-! ### The serialized text, at character level -/

/-- The `", "`-separated continuation of a joined list. -/
def sepTailText : List String → List Char
  | [] => []
  | b :: bs => ',' :: (' ' :: (b.data ++ sepTailText bs))

lemma joinList_foldl_data : ∀ (bs : List String) (acc : String),
    (bs.foldl (fun acc y => acc ++ ", " ++ y) acc).data = acc.data ++ sepTailText bs := by
  intro bs
  induction bs with
  | nil => intro acc; simp [sepTailText]
  | cons b bs ih =>
      intro acc
      simp only [List.foldl_cons, ih, sepTailText, data_append]
      simp

lemma joinList_data (b : String) (bs : List String) :
    (joinList (b :: bs)).data = b.data ++ sepTailText bs := by
  simp [joinList, joinList_foldl_data]

/-- The serialized `key = value` lines of a section. -/
def kvText : List (String × String) → List Char
  | [] => []
  | kv :: rest =>
      kv.1.data ++ (' ' :: ('=' :: (' ' :: (kv.2.data ++ ('\n' :: kvText rest)))))

lemma vals_foldl_data : ∀ (kvs : List (String × String)) (acc : String),
    (kvs.foldl (fun acc kv => acc ++ kv.1 ++ " = " ++ kv.2 ++ "\n") acc).data
      = acc.data ++ kvText kvs := by
  intro kvs
  induction kvs with
  | nil => intro acc; simp [kvText]
  | cons kv kvs ih =>
      intro acc
      simp only [List.foldl_cons, ih, kvText, data_append]
      simp

/-- The serialized text of a whole section list. -/
def sectionsText : List (String × Sec) → List Char
  | [] => []
  | p :: rest => (saveSec p).data ++ sectionsText rest

lemma save_foldl_data : ∀ (gs : List (String × Sec)) (acc : String),
    (gs.foldl (fun acc p => acc ++ saveSec p) acc).data = acc.data ++ sectionsText gs := by
  intro gs
  induction gs with
  | nil => intro acc; simp [sectionsText]
  | cons p gs ih =>
      intro acc
      simp only [List.foldl_cons, ih, sectionsText, data_append]
      simp

lemma save_data (g : Config) : (save g).data = sectionsText g.sections := by
  simp [save, save_foldl_data]

lemma stepChar_spc_inh (inc : String → Config → Config)
    (f1 f2 f3 f4 f5 f6 f7 : String) (p : Option String) (ln ps : Nat) (g : Config) :
    stepChar inc ' ' ⟨f1, f2, f3, f4, f5, f6, f7, p, PA.INHERITANCE, ln, ps, true⟩ g
      = (⟨f1, f2, f3, f4, f5, f6, f7, p, PA.INHERITANCE, ln, ps + 1, true⟩, g) := rfl

lemma stepChar_spc_attr (inc : String → Config → Config)
    (f1 f2 f3 f4 f5 f6 f7 : String) (p : Option String) (ln ps : Nat) (g : Config) :
    stepChar inc ' ' ⟨f1, f2, f3, f4, f5, f6, f7, p, PA.ATTRIBUTE, ln, ps, true⟩ g
      = (⟨f1, f2, f3, f4, f5, f6, f7, p, PA.ATTRIBUTE, ln, ps + 1, true⟩, g) := rfl

lemma stepChar_spc_sec (inc : String → Config → Config)
    (f1 f2 f3 f4 f5 f6 f7 : String) (p : Option String) (ln ps : Nat) (g : Config) :
    stepChar inc ' ' ⟨f1, f2, f3, f4, f5, f6, f7, p, PA.SECTION, ln, ps, true⟩ g
      = (⟨f1, f2, f3, f4, f5, f6, f7, p, PA.SECTION, ln, ps + 1, true⟩, g) := rfl

lemma dropLast_cons2 {α : Type} (x y : α) (l : List α) :
    (x :: y :: l).dropLast = x :: (y :: l).dropLast := rfl

lemma getLastD_cons2 {α : Type} (a d : α) (l : List α) :
    (a :: l).getLastD d = l.getLastD a := by
  cases l <;> simp [List.getLastD]

/-- `PushInheritance` on the mid-header state: a pending existing base is
appended to the active section. -/
lemma pushInheritance_run (sc pend : String) (n : String)
    (f3 f4 f5 f6 f7 : String) (ln ps : Nat) (ig : Bool) (g : Config)
    (hpend : pend ≠ "") (hex : (lookupA g.sections pend).isSome = true) :
    pushInheritance ⟨sc, pend, f3, f4, f5, f6, f7, some n, PA.INHERITANCE, ln, ps, ig⟩ g
      = (⟨sc, "", f3, f4, f5, f6, f7, some n, PA.INHERITANCE, ln, ps, ig⟩,
         { g with sections := updInh g.sections n [pend] }) := by
  simp [pushInheritance, hpend, hex, updInh]

/-- `PushAttribute` on the mid-header state. -/
lemma pushAttribute_run (sc pend : String) (n : String)
    (f2 f4 f5 f6 f7 : String) (ln ps : Nat) (ig : Bool) (g : Config)
    (hpend : pend ≠ "") :
    pushAttribute ⟨sc, f2, pend, f4, f5, f6, f7, some n, PA.ATTRIBUTE, ln, ps, ig⟩ g
      = (⟨sc, f2, "", f4, f5, f6, f7, some n, PA.ATTRIBUTE, ln, ps, ig⟩,
         { g with sections := updAttr g.sections n [pend] }) := by
  simp [pushAttribute, hpend, updAttr]

/-- Consuming the `", base"` continuation of an inheritance list: every
completed token is validated and pushed, the last one stays pending. -/
lemma feed_inh_tail (inc : String → Config → Config) :
    ∀ (bs : List String) (rest : List Char) (pend sc n : String) (ln ps : Nat)
      (g : Config),
      pend ≠ "" →
      (∀ b ∈ bs, b ≠ "" ∧ ∀ c ∈ b.data, plainChar c) →
      pend ∈ g.sections.map Prod.fst →
      (∀ b ∈ bs, b ∈ g.sections.map Prod.fst) →
      feed inc (sepTailText bs ++ rest)
          ⟨sc, pend, "", "", "", "", "", some n, PA.INHERITANCE, ln, ps, true⟩ g
        = feed inc rest
            ⟨sc, bs.getLastD pend, "", "", "", "", "", some n, PA.INHERITANCE, ln,
              ps + (sepTailText bs).length, true⟩
            { g with sections := updInh g.sections n ((pend :: bs).dropLast) } := by
  intro bs
  induction bs with
  | nil =>
      intro rest pend sc n ln ps g hpend hbs hpm hbm
      simp [sepTailText, updInh_nil]
  | cons b bs ih =>
      intro rest pend sc n ln ps g hpend hbs hpm hbm
      have hex : (lookupA g.sections pend).isSome = true :=
        (lookupA_isSome_iff _ _).mpr hpm
      have hb := hbs b (List.mem_cons_self b bs)
      have hbs2 : ∀ x ∈ bs, x ≠ "" ∧ ∀ c ∈ x.data, plainChar c :=
        fun x hx => hbs x (List.mem_cons_of_mem b hx)
      rw [show sepTailText (b :: bs) ++ rest
          = ',' :: (' ' :: (b.data ++ (sepTailText bs ++ rest))) from by
        simp [sepTailText]]
      rw [feed_cons_step inc ',' _ _ _ (by simp), stepChar_comma]
      dsimp only [commaStep]
      rw [pushInheritance_run sc pend n "" "" "" "" "" ln ps true g hpend hex]
      dsimp only [bump]
      rw [feed_cons_step inc ' ' _ _ _ (by simp), stepChar_spc_inh]
      rw [feed_run_inh inc _ b.data _ _ hb.2 rfl]
      simp only [data_empty, List.nil_append, mk_data]
      have hstep := ih rest b sc n ln (ps + 1 + 1 + b.data.length)
        { g with sections := updInh g.sections n [pend] }
        hb.1 hbs2
        (by rw [show ({ g with sections := updInh g.sections n [pend] } :
              Config).sections = updInh g.sections n [pend] from rfl]
            unfold updInh
            rw [map_fst_updateSec]
            exact hbm b (List.mem_cons_self b bs))
        (by intro x hx
            rw [show ({ g with sections := updInh g.sections n [pend] } :
              Config).sections = updInh g.sections n [pend] from rfl]
            unfold updInh
            rw [map_fst_updateSec]
            exact hbm x (List.mem_cons_of_mem b hx))
      rw [hstep]
      rw [show ({ ({ g with sections := updInh g.sections n [pend] } : Config) with
            sections := updInh (updInh g.sections n [pend]) n ((b :: bs).dropLast) } :
            Config)
          = { g with sections := updInh g.sections n ([pend] ++ (b :: bs).dropLast) }
          from by rw [updInh_updInh]]
      rw [show [pend] ++ (b :: bs).dropLast = (pend :: b :: bs).dropLast from rfl]
      congr 2
      · exact (getLastD_cons2 b pend bs).symm
      · simp only [sepTailText, List.length_cons, List.length_append]
        omega

/-- Consuming the `", attr"` continuation of an attribute list. -/
lemma feed_attr_tail (inc : String → Config → Config) :
    ∀ (bs : List String) (rest : List Char) (pend sc n : String) (ln ps : Nat)
      (g : Config),
      pend ≠ "" →
      (∀ b ∈ bs, b ≠ "" ∧ ∀ c ∈ b.data, plainChar c) →
      feed inc (sepTailText bs ++ rest)
          ⟨sc, "", pend, "", "", "", "", some n, PA.ATTRIBUTE, ln, ps, true⟩ g
        = feed inc rest
            ⟨sc, "", bs.getLastD pend, "", "", "", "", some n, PA.ATTRIBUTE, ln,
              ps + (sepTailText bs).length, true⟩
            { g with sections := updAttr g.sections n ((pend :: bs).dropLast) } := by
  intro bs
  induction bs with
  | nil =>
      intro rest pend sc n ln ps g hpend hbs
      simp [sepTailText, updAttr_nil]
  | cons b bs ih =>
      intro rest pend sc n ln ps g hpend hbs
      have hb := hbs b (List.mem_cons_self b bs)
      have hbs2 : ∀ x ∈ bs, x ≠ "" ∧ ∀ c ∈ x.data, plainChar c :=
        fun x hx => hbs x (List.mem_cons_of_mem b hx)
      rw [show sepTailText (b :: bs) ++ rest
          = ',' :: (' ' :: (b.data ++ (sepTailText bs ++ rest))) from by
        simp [sepTailText]]
      rw [feed_cons_step inc ',' _ _ _ (by simp), stepChar_comma]
      dsimp only [commaStep]
      rw [pushAttribute_run sc pend n "" "" "" "" "" ln ps true g hpend]
      dsimp only [bump]
      rw [feed_cons_step inc ' ' _ _ _ (by simp), stepChar_spc_attr]
      rw [feed_run_attr inc _ b.data _ _ hb.2 rfl]
      simp only [data_empty, List.nil_append, mk_data]
      have hstep := ih rest b sc n ln (ps + 1 + 1 + b.data.length)
        { g with sections := updAttr g.sections n [pend] } hb.1 hbs2
      rw [hstep]
      rw [show ({ ({ g with sections := updAttr g.sections n [pend] } : Config) with
            sections := updAttr (updAttr g.sections n [pend]) n ((b :: bs).dropLast) } :
            Config)
          = { g with sections := updAttr g.sections n ([pend] ++ (b :: bs).dropLast) }
          from by rw [updAttr_updAttr]]
      rw [show [pend] ++ (b :: bs).dropLast = (pend :: b :: bs).dropLast from rfl]
      congr 2
      · exact (getLastD_cons2 b pend bs).symm
      · simp only [sepTailText, List.length_cons, List.length_append]
        omega

lemma stepChar_colon_sec (inc : String → Config → Config)
    (f1 f2 f3 f4 f5 f6 f7 : String) (p : Option String) (ln ps : Nat) (ig : Bool)
    (g : Config) :
    stepChar inc ':' ⟨f1, f2, f3, f4, f5, f6, f7, p, PA.SECTION, ln, ps, ig⟩ g
      = (⟨f1, f2, f3, f4, f5, f6, f7, p, PA.INHERITANCE, ln, ps + 1, ig⟩, g) := rfl

lemma stepChar_eq_sec (inc : String → Config → Config)
    (f1 f2 f3 f4 f5 f6 f7 : String) (p : Option String) (ln ps : Nat) (ig : Bool)
    (g : Config) :
    stepChar inc '=' ⟨f1, f2, f3, f4, f5, f6, f7, p, PA.SECTION, ln, ps, ig⟩ g
      = (⟨f1, f2, f3, f4, f5, f6, f7, p, PA.ATTRIBUTE, ln, ps + 1, ig⟩, g) := rfl

/-- `=` after an inheritance list: the pending base is pushed and the
header switches to attributes. -/
lemma stepChar_eq_inh_push (inc : String → Config → Config) (sc pend n : String)
    (ln ps : Nat) (g : Config)
    (hpend : pend ≠ "") (hex : (lookupA g.sections pend).isSome = true) :
    stepChar inc '=' ⟨sc, pend, "", "", "", "", "", some n, PA.INHERITANCE, ln, ps, true⟩ g
      = (⟨sc, "", "", "", "", "", "", some n, PA.ATTRIBUTE, ln, ps + 1, true⟩,
         { g with sections := updInh g.sections n [pend] }) := by
  rw [stepChar_assign]
  dsimp only [eqStep]
  rw [pushInheritance_run sc pend n "" "" "" "" "" ln ps true g hpend hex]
  rfl

/-- Newline after an inheritance list: the pending base is pushed and the
next line starts. -/
lemma stepChar_nl_inh_push (inc : String → Config → Config) (sc pend n : String)
    (ln ps : Nat) (g : Config)
    (hpend : pend ≠ "") (hex : (lookupA g.sections pend).isSome = true) :
    stepChar inc '\n' ⟨sc, pend, "", "", "", "", "", some n, PA.INHERITANCE, ln, ps, true⟩ g
      = (lineSt sc (some n) (ln + 1) 1,
         { g with sections := updInh g.sections n [pend] }) := by
  rw [stepChar_nl]
  dsimp only [newlineStep]
  rw [pushInheritance_run sc pend n "" "" "" "" "" ln ps true g hpend hex]
  simp [bump, lineSt]

/-- Newline after an attribute list: the pending attribute is pushed and
the next line starts. -/
lemma stepChar_nl_attr_push (inc : String → Config → Config) (sc pend n : String)
    (ln ps : Nat) (g : Config) (hpend : pend ≠ "") :
    stepChar inc '\n' ⟨sc, "", pend, "", "", "", "", some n, PA.ATTRIBUTE, ln, ps, true⟩ g
      = (lineSt sc (some n) (ln + 1) 1,
         { g with sections := updAttr g.sections n [pend] }) := by
  rw [stepChar_nl]
  dsimp only [newlineStep]
  rw [pushAttribute_run sc pend n "" "" "" "" "" ln ps true g hpend]
  simp [bump, lineSt]

/-- `line_kv_fresh` with single spaces around `=`, as written by `save`. -/
lemma line_kv_fresh_sp (inc : String → Config → Config) (rest : List Char)
    (c : Char) (krest vcs : List Char) (n sc : String) (s0 : Sec)
    (ln ps : Nat) (g : Config)
    (hc : plainChar c) (hk : ∀ x ∈ krest, plainChar x)
    (hv : ∀ x ∈ vcs, plainChar x)
    (hsec : lookupA g.sections n = some s0)
    (hfresh : lookupA s0.values (String.mk (c :: krest)) = none) :
    feed inc (c :: (krest ++ ' ' :: '=' :: ' ' :: (vcs ++ '\n' :: rest)))
        (lineSt sc (some n) ln ps) g
      = feed inc rest (lineSt sc (some n) (ln + 1) 1)
          { g with sections := updateSec g.sections n (fun s => { s with values := s.values ++ [(String.mk (c :: krest), String.mk vcs)] }) } := by
  have h := line_kv_fresh inc rest c krest [' '] [' '] vcs n sc s0 ln ps g hc hk
    (by simp) (by simp) hv hsec hfresh
  simpa using h

lemma lookupA_updVals (l : List (String × Sec)) (n : String)
    (xs : List (String × String)) :
    lookupA (updVals l n xs) n
      = (lookupA l n).map (fun s => { s with values := s.values ++ xs }) := by
  unfold updVals
  rw [lookupA_updateSec]
  simp

lemma lookupA_append_right {α : Type} (l : List (String × α)) (n : String) (x : α)
    (h : lookupA l n = none) : lookupA (l ++ [(n, x)]) n = some x := by
  rw [lookupA_append, h]
  simp [lookupA]

lemma dropLast_append_getLastD {α : Type} :
    ∀ (bs : List α) (b : α), (b :: bs).dropLast ++ [bs.getLastD b] = b :: bs := by
  intro bs
  induction bs with
  | nil => intro b; simp
  | cons b2 bs2 ih =>
      intro b
      rw [dropLast_cons2, getLastD_cons2]
      simp only [List.cons_append]
      rw [ih b2]

/-- A block of `key = value` lines inside an active section: every binding
is appended in order. -/
lemma feed_kv_block (inc : String → Config → Config) :
    ∀ (kvs : List (String × String)) (rest : List Char) (n sc : String) (ln : Nat)
      (g : Config) (s0 : Sec),
      lookupA g.sections n = some s0 →
      (∀ kv ∈ kvs, kv.1.data ≠ [] ∧ (∀ c ∈ kv.1.data, identChar c)
        ∧ (∀ c ∈ kv.2.data, identChar c)) →
      ((s0.values ++ kvs).map Prod.fst).Nodup →
      feed inc (kvText kvs ++ rest) (lineSt sc (some n) ln 1) g
        = feed inc rest (lineSt sc (some n) (ln + kvs.length) 1)
            { g with sections := updVals g.sections n kvs } := by
  intro kvs
  induction kvs with
  | nil =>
      intro rest n sc ln g s0 hsec hkv hnd
      simp [kvText, updVals_nil]
  | cons kv kvs ih =>
      intro rest n sc ln g s0 hsec hkv hnd
      obtain ⟨k, v⟩ := kv
      have hk := hkv (k, v) (List.mem_cons_self _ _)
      have hkv2 : ∀ x ∈ kvs, x.1.data ≠ [] ∧ (∀ c ∈ x.1.data, identChar c)
          ∧ (∀ c ∈ x.2.data, identChar c) :=
        fun x hx => hkv x (List.mem_cons_of_mem _ hx)
      rcases hkd : k.data with _ | ⟨c, krest⟩
      · exact absurd hkd hk.1
      have hkmk : String.mk (c :: krest) = k := by rw [← hkd]
      have hc : plainChar c := by
        have := hk.2.1
        rw [hkd] at this
        exact ident_plain (this c (List.mem_cons_self _ _))
      have hkr : ∀ x ∈ krest, plainChar x := by
        intro x hx
        have := hk.2.1
        rw [hkd] at this
        exact ident_plain (this x (List.mem_cons_of_mem _ hx))
      have hv : ∀ x ∈ v.data, plainChar x := fun x hx => ident_plain (hk.2.2 x hx)
      have hknotin : ¬ k ∈ s0.values.map Prod.fst := by
        intro hmem
        rw [List.map_append, List.map_cons] at hnd
        have hdisj := (List.nodup_append.mp hnd).2.2
        exact hdisj hmem (List.mem_cons_self _ _)
      have hfresh : lookupA s0.values (String.mk (c :: krest)) = none := by
        rw [hkmk]
        exact (lookupA_none_iff _ _).mpr hknotin
      rw [show kvText ((k, v) :: kvs) ++ rest
          = c :: (krest ++ ' ' :: '=' :: ' ' :: (v.data ++ '\n' :: (kvText kvs ++ rest)))
          from by simp [kvText, hkd]]
      rw [line_kv_fresh_sp inc _ c krest v.data n sc s0 ln 1 g hc hkr hv hsec hfresh]
      rw [show (updateSec g.sections n (fun s => { s with values := s.values ++ [(String.mk (c :: krest), String.mk v.data)] }))
          = updVals g.sections n [(k, v)] from by rw [hkmk, mk_data]; rfl]
      have hsec2 : lookupA (updVals g.sections n [(k, v)]) n
          = some { s0 with values := s0.values ++ [(k, v)] } := by
        rw [lookupA_updVals, hsec]
        rfl
      have hnd2 : ((({ s0 with values := s0.values ++ [(k, v)] } : Sec).values
          ++ kvs).map Prod.fst).Nodup := by
        show (((s0.values ++ [(k, v)]) ++ kvs).map Prod.fst).Nodup
        rw [List.append_assoc]
        simpa using hnd
      have hstep := ih (rest) n sc (ln + 1)
        { g with sections := updVals g.sections n [(k, v)] }
        { s0 with values := s0.values ++ [(k, v)] } hsec2 hkv2 hnd2
      rw [hstep]
      rw [show ({ ({ g with sections := updVals g.sections n [(k, v)] } : Config) with
            sections := updVals (updVals g.sections n [(k, v)]) n kvs } : Config)
          = { g with sections := updVals g.sections n ((k, v) :: kvs) } from by
        rw [updVals_updVals]
        rfl]
      rw [show ln + 1 + kvs.length = ln + ((k, v) :: kvs).length from by
        simp [List.length_cons]
        omega]

/-- The optional ` : base, base` part of a saved header. -/
def inhText : List String → List Char
  | [] => []
  | b :: bs => ' ' :: (':' :: (' ' :: (b.data ++ sepTailText bs)))

/-- The optional ` = attr, attr` part of a saved header. -/
def attrText : List String → List Char
  | [] => []
  | t :: ts => ' ' :: ('=' :: (' ' :: (t.data ++ sepTailText ts)))

lemma inh_if_data (l : List String) :
    (if l ≠ [] then " : " ++ joinList l else "").data = inhText l := by
  rcases l with _ | ⟨b, bs⟩
  · rfl
  · rw [if_pos (by simp)]
    rw [data_append, joinList_data]
    rfl

lemma attr_if_data (l : List String) :
    (if l ≠ [] then " = " ++ joinList l else "").data = attrText l := by
  rcases l with _ | ⟨b, bs⟩
  · rfl
  · rw [if_pos (by simp)]
    rw [data_append, joinList_data]
    rfl

lemma saveSec_data_decomp (n : String) (s : Sec) (rest : List Char) :
    (saveSec (n, s)).data ++ rest
      = '[' :: (n.data ++ (']' :: (inhText s.inheritances
          ++ (attrText s.attributes
          ++ ('\n' :: (kvText s.values ++ ('\n' :: rest))))))) := by
  show ("[" ++ n ++ "]"
      ++ (if s.inheritances ≠ [] then " : " ++ joinList s.inheritances else "")
      ++ (if s.attributes ≠ [] then " = " ++ joinList s.attributes else "")
      ++ "\n"
      ++ s.values.foldl (fun acc kv => acc ++ kv.1 ++ " = " ++ kv.2 ++ "\n") ""
      ++ "\n").data ++ rest = _
  simp only [data_append, inh_if_data, attr_if_data, vals_foldl_data, data_empty,
    List.nil_append, List.append_assoc]
  rfl

lemma stepChar_nl_sec (inc : String → Config → Config) (sc : String)
    (p : Option String) (ln ps : Nat) (g : Config) :
    stepChar inc '\n' ⟨sc, "", "", "", "", "", "", p, PA.SECTION, ln, ps, true⟩ g
      = (lineSt sc p (ln + 1) 1, g) := rfl

lemma getLastD_self_mem {α : Type} :
    ∀ (bs : List α) (b : α), bs.getLastD b ∈ b :: bs := by
  intro bs
  induction bs with
  | nil => intro b; simp
  | cons b2 bs2 ih =>
      intro b
      rw [getLastD_cons2]
      exact List.mem_cons_of_mem b (ih b2)

lemma updInh_append_last (gs : List (String × Sec)) (n : String) (x : Sec)
    (xs : List String) (h : lookupA gs n = none) :
    updInh (gs ++ [(n, x)]) n xs
      = gs ++ [(n, { x with inheritances := x.inheritances ++ xs })] := by
  unfold updInh
  exact updateSec_append_last n x _ gs h

lemma updAttr_append_last (gs : List (String × Sec)) (n : String) (x : Sec)
    (xs : List String) (h : lookupA gs n = none) :
    updAttr (gs ++ [(n, x)]) n xs
      = gs ++ [(n, { x with attributes := x.attributes ++ xs })] := by
  unfold updAttr
  exact updateSec_append_last n x _ gs h

lemma updVals_append_last (gs : List (String × Sec)) (n : String) (x : Sec)
    (xs : List (String × String)) (h : lookupA gs n = none) :
    updVals (gs ++ [(n, x)]) n xs
      = gs ++ [(n, { x with values := x.values ++ xs })] := by
  unfold updVals
  exact updateSec_append_last n x _ gs h

/-- The value block of a freshly created last section followed by the blank
line: the bindings are appended and the machine returns to a line start. -/
lemma feed_kv_blank (inc : String → Config → Config)
    (svals : List (String × String)) (rest : List Char) (n : String) (ln : Nat)
    (g : Config) (x : Sec)
    (hx : x.values = [])
    (hfresh : lookupA g.sections n = none)
    (hkv : ∀ kv ∈ svals, kv.1.data ≠ [] ∧ (∀ c ∈ kv.1.data, identChar c)
      ∧ (∀ c ∈ kv.2.data, identChar c))
    (hnd : (svals.map Prod.fst).Nodup) :
    feed inc (kvText svals ++ ('\n' :: rest)) (lineSt n (some n) ln 1)
        { g with sections := g.sections ++ [(n, x)] }
      = feed inc rest (lineSt n (some n) (ln + svals.length + 1) 1)
          { g with sections := g.sections ++ [(n, { x with values := svals })] } := by
  have hsec : lookupA (({ g with sections := g.sections ++ [(n, x)] } : Config)).sections n
      = some x := lookupA_append_right _ _ _ hfresh
  rw [feed_kv_block inc svals _ n n ln { g with sections := g.sections ++ [(n, x)] } x
    hsec hkv (by rw [hx]; simpa using hnd)]
  rw [show ({ ({ g with sections := g.sections ++ [(n, x)] } : Config) with
        sections := updVals (({ g with sections := g.sections ++ [(n, x)] } : Config)).sections n svals } : Config)
      = { g with sections := g.sections ++ [(n, { x with values := svals })] } from by
    dsimp only
    rw [updVals_append_last g.sections n x svals hfresh, hx]
    simp]
  rw [line_blank]

/-- Feeding the serialized text of one section from a line start into a
configuration not yet containing it reproduces the section exactly, as the
new last entry. -/
lemma feed_save_section (inc : String → Config → Config) (n : String) (s : Sec)
    (rest : List Char) (sc : String) (p : Option String) (ln ps : Nat) (g : Config)
    (hn : ∀ c ∈ n.data, identChar c)
    (hfresh : lookupA g.sections n = none)
    (hinh : ∀ b ∈ s.inheritances, b ≠ "" ∧ (∀ c ∈ b.data, identChar c)
      ∧ b ∈ g.sections.map Prod.fst ++ [n])
    (hattr : ∀ t ∈ s.attributes, t ≠ "" ∧ ∀ c ∈ t.data, identChar c)
    (hnd : (s.values.map Prod.fst).Nodup)
    (hkv : ∀ kv ∈ s.values, kv.1.data ≠ [] ∧ (∀ c ∈ kv.1.data, identChar c)
      ∧ (∀ c ∈ kv.2.data, identChar c)) :
    feed inc ((saveSec (n, s)).data ++ rest) (lineSt sc p ln ps) g
      = feed inc rest (lineSt n (some n) (ln + s.values.length + 2) 1)
          { g with sections := g.sections ++ [(n, s)] } := by
  rcases s with ⟨sinh, sattr, svals⟩
  dsimp only at hinh hattr hnd hkv ⊢
  rw [saveSec_data_decomp]
  dsimp only
  rw [feed_header_open_fresh inc _ n.data (lineSt sc p ln ps) g
    (fun x hx => ident_plain (hn x hx)) rfl (by rw [mk_data]; exact hfresh)]
  simp only [mk_data]
  dsimp only [lineSt]
  rcases sinh with _ | ⟨b, bs⟩
  · rcases sattr with _ | ⟨t, ts⟩
    · -- no inheritance, no attributes
      dsimp only [inhText, attrText]
      simp only [List.nil_append]
      rw [feed_cons_step inc '\n' _ _ _ (by simp), stepChar_nl_sec]
      dsimp only
      rw [feed_kv_blank inc svals rest n (ln + 1) g ⟨[], [], []⟩ rfl hfresh hkv
        (by simpa using hnd)]
      rw [show ln + 1 + svals.length + 1 = ln + svals.length + 2 from by omega]
      rfl
    · -- attributes only
      dsimp only [inhText, attrText]
      simp only [List.nil_append, List.cons_append, List.append_assoc]
      have ht := hattr t (List.mem_cons_self t ts)
      have hts : ∀ x ∈ ts, x ≠ "" ∧ ∀ c ∈ x.data, plainChar c := by
        intro x hx
        have h := hattr x (List.mem_cons_of_mem t hx)
        exact ⟨h.1, fun c hc => ident_plain (h.2 c hc)⟩
      rw [feed_cons_step inc ' ' _ _ _ (by simp), stepChar_spc_sec]
      dsimp only
      rw [feed_cons_step inc '=' _ _ _ (by simp), stepChar_eq_sec]
      dsimp only
      rw [feed_cons_step inc ' ' _ _ _ (by simp), stepChar_spc_attr]
      dsimp only
      rw [feed_run_attr inc _ t.data _ _ (fun c hc => ident_plain (ht.2 c hc)) rfl]
      simp only [data_empty, List.nil_append, mk_data]
      rw [feed_attr_tail inc ts _ t n n _ _ _ ht.1 hts]
      dsimp only
      have hlast := hattr (ts.getLastD t) (getLastD_self_mem ts t)
      rw [feed_cons_step inc '\n' _ _ _ (by simp),
        stepChar_nl_attr_push inc n (ts.getLastD t) n _ _ _ hlast.1]
      dsimp only
      rw [show ({ ({ ({ g with sections := g.sections ++ [(n, ⟨[], [], []⟩)] } : Config) with
            sections := updAttr (g.sections ++ [(n, ⟨[], [], []⟩)]) n ((t :: ts).dropLast) } : Config) with
            sections := updAttr (updAttr (g.sections ++ [(n, ⟨[], [], []⟩)]) n ((t :: ts).dropLast)) n [ts.getLastD t] } : Config)
          = { g with sections := g.sections ++ [(n, ⟨[], t :: ts, []⟩)] } from by
        dsimp only
        rw [updAttr_updAttr, dropLast_append_getLastD ts t,
          updAttr_append_last g.sections n ⟨[], [], []⟩ (t :: ts) hfresh]
        rfl]
      rw [feed_kv_blank inc svals rest n (ln + 1) g ⟨[], t :: ts, []⟩ rfl hfresh hkv
        (by simpa using hnd)]
      rw [show ln + 1 + svals.length + 1 = ln + svals.length + 2 from by omega]
      rfl
  · -- inheritance present
    have hb := hinh b (List.mem_cons_self b bs)
    have hbs : ∀ x ∈ bs, x ≠ "" ∧ ∀ c ∈ x.data, plainChar c := by
      intro x hx
      have h := hinh x (List.mem_cons_of_mem b hx)
      exact ⟨h.1, fun c hc => ident_plain (h.2.1 c hc)⟩
    have hmemb : ∀ x ∈ b :: bs,
        x ∈ (g.sections ++ [(n, (⟨[], [], []⟩ : Sec))]).map Prod.fst := by
      intro x hx
      rw [List.map_append]
      exact (hinh x hx).2.2
    have hlast := hinh (bs.getLastD b) (getLastD_self_mem bs b)
    have hlastmem : bs.getLastD b
        ∈ (updInh (g.sections ++ [(n, (⟨[], [], []⟩ : Sec))]) n ((b :: bs).dropLast)).map Prod.fst := by
      unfold updInh
      rw [map_fst_updateSec]
      exact hmemb _ (getLastD_self_mem bs b)
    have hlastex : (lookupA (updInh (g.sections ++ [(n, (⟨[], [], []⟩ : Sec))]) n
        ((b :: bs).dropLast)) (bs.getLastD b)).isSome = true :=
      (lookupA_isSome_iff _ _).mpr hlastmem
    dsimp only [inhText]
    simp only [List.cons_append, List.append_assoc]
    rw [feed_cons_step inc ' ' _ _ _ (by simp), stepChar_spc_sec]
    dsimp only
    rw [feed_cons_step inc ':' _ _ _ (by simp), stepChar_colon_sec]
    dsimp only
    rw [feed_cons_step inc ' ' _ _ _ (by simp), stepChar_spc_inh]
    dsimp only
    rw [feed_run_inh inc _ b.data _ _ (fun c hc => ident_plain (hb.2.1 c hc)) rfl]
    simp only [data_empty, List.nil_append, mk_data]
    rw [feed_inh_tail inc bs _ b n n _ _ _ hb.1 hbs
      (by exact hmemb b (List.mem_cons_self b bs))
      (by intro x hx; exact hmemb x (List.mem_cons_of_mem b hx))]
    dsimp only
    rcases sattr with _ | ⟨t, ts⟩
    · -- inheritance only
      dsimp only [attrText]
      simp only [List.nil_append]
      rw [feed_cons_step inc '\n' _ _ _ (by simp),
        stepChar_nl_inh_push inc n (bs.getLastD b) n _ _ _ hlast.1 hlastex]
      dsimp only
      rw [show ({ ({ ({ g with sections := g.sections ++ [(n, ⟨[], [], []⟩)] } : Config) with
            sections := updInh (g.sections ++ [(n, ⟨[], [], []⟩)]) n ((b :: bs).dropLast) } : Config) with
            sections := updInh (updInh (g.sections ++ [(n, ⟨[], [], []⟩)]) n ((b :: bs).dropLast)) n [bs.getLastD b] } : Config)
          = { g with sections := g.sections ++ [(n, ⟨b :: bs, [], []⟩)] } from by
        dsimp only
        rw [updInh_updInh, dropLast_append_getLastD bs b,
          updInh_append_last g.sections n ⟨[], [], []⟩ (b :: bs) hfresh]
        rfl]
      rw [feed_kv_blank inc svals rest n (ln + 1) g ⟨b :: bs, [], []⟩ rfl hfresh hkv
        (by simpa using hnd)]
      rw [show ln + 1 + svals.length + 1 = ln + svals.length + 2 from by omega]
      rfl
    · -- inheritance and attributes
      have ht := hattr t (List.mem_cons_self t ts)
      have hts : ∀ x ∈ ts, x ≠ "" ∧ ∀ c ∈ x.data, plainChar c := by
        intro x hx
        have h := hattr x (List.mem_cons_of_mem t hx)
        exact ⟨h.1, fun c hc => ident_plain (h.2 c hc)⟩
      dsimp only [attrText]
      simp only [List.cons_append, List.append_assoc]
      rw [feed_cons_step inc ' ' _ _ _ (by simp), stepChar_spc_inh]
      dsimp only
      rw [feed_cons_step inc '=' _ _ _ (by simp),
        stepChar_eq_inh_push inc n (bs.getLastD b) n _ _ _ hlast.1 hlastex]
      dsimp only
      rw [show ({ ({ ({ g with sections := g.sections ++ [(n, ⟨[], [], []⟩)] } : Config) with
            sections := updInh (g.sections ++ [(n, ⟨[], [], []⟩)]) n ((b :: bs).dropLast) } : Config) with
            sections := updInh (updInh (g.sections ++ [(n, ⟨[], [], []⟩)]) n ((b :: bs).dropLast)) n [bs.getLastD b] } : Config)
          = { g with sections := g.sections ++ [(n, ⟨b :: bs, [], []⟩)] } from by
        dsimp only
        rw [updInh_updInh, dropLast_append_getLastD bs b,
          updInh_append_last g.sections n ⟨[], [], []⟩ (b :: bs) hfresh]
        rfl]
      rw [feed_cons_step inc ' ' _ _ _ (by simp), stepChar_spc_attr]
      dsimp only
      rw [feed_run_attr inc _ t.data _ _ (fun c hc => ident_plain (ht.2 c hc)) rfl]
      simp only [data_empty, List.nil_append, mk_data]
      rw [feed_attr_tail inc ts _ t n n _ _ _ ht.1 hts]
      dsimp only
      have hlastt := hattr (ts.getLastD t) (getLastD_self_mem ts t)
      rw [feed_cons_step inc '\n' _ _ _ (by simp),
        stepChar_nl_attr_push inc n (ts.getLastD t) n _ _ _ hlastt.1]
      dsimp only
      rw [show ({ ({ ({ g with sections := g.sections ++ [(n, ⟨b :: bs, [], []⟩)] } : Config) with
            sections := updAttr (g.sections ++ [(n, ⟨b :: bs, [], []⟩)]) n ((t :: ts).dropLast) } : Config) with
            sections := updAttr (updAttr (g.sections ++ [(n, ⟨b :: bs, [], []⟩)]) n ((t :: ts).dropLast)) n [ts.getLastD t] } : Config)
          = { g with sections := g.sections ++ [(n, ⟨b :: bs, t :: ts, []⟩)] } from by
        dsimp only
        rw [updAttr_updAttr, dropLast_append_getLastD ts t,
          updAttr_append_last g.sections n ⟨b :: bs, [], []⟩ (t :: ts) hfresh]
        rfl]
      rw [feed_kv_blank inc svals rest n (ln + 1) g ⟨b :: bs, t :: ts, []⟩ rfl hfresh hkv
        (by simpa using hnd)]
      rw [show ln + 1 + svals.length + 1 = ln + svals.length + 2 from by omega]
      rfl

/-- Well-formedness of a section list for faithful serialization: names
are fresh identifier strings, every inheritance base is a non-empty
identifier naming an earlier (or the current) section, every attribute is
a non-empty identifier, and the keys of a section are distinct non-empty
identifiers with identifier values. `seen` holds the names already
emitted. -/
def wfSections : List String → List (String × Sec) → Prop
  | _, [] => True
  | seen, (n, s) :: rest =>
      (∀ c ∈ n.data, identChar c)
      ∧ ¬ n ∈ seen
      ∧ (∀ b ∈ s.inheritances, b ≠ "" ∧ (∀ c ∈ b.data, identChar c) ∧ b ∈ seen ++ [n])
      ∧ (∀ t ∈ s.attributes, t ≠ "" ∧ ∀ c ∈ t.data, identChar c)
      ∧ (s.values.map Prod.fst).Nodup
      ∧ (∀ kv ∈ s.values, kv.1.data ≠ [] ∧ (∀ c ∈ kv.1.data, identChar c)
          ∧ (∀ c ∈ kv.2.data, identChar c))
      ∧ wfSections (seen ++ [n]) rest

instance instDecWfSections : (seen : List String) → (gs : List (String × Sec)) →
    Decidable (wfSections seen gs)
  | _, [] => Decidable.isTrue trivial
  | seen, (n, s) :: rest =>
      have : Decidable (wfSections (seen ++ [n]) rest) :=
        instDecWfSections (seen ++ [n]) rest
      by unfold wfSections; infer_instance

/-- Feeding the serialized text of a well-formed section list appends
exactly those sections, ending at some line start. -/
lemma feed_sections (inc : String → Config → Config) :
    ∀ (gs : List (String × Sec)) (rest : List Char) (sc : String) (p : Option String)
      (ln ps : Nat) (g : Config),
      wfSections (g.sections.map Prod.fst) gs →
      ∃ sc2 p2 ln2 ps2,
        feed inc (sectionsText gs ++ rest) (lineSt sc p ln ps) g
          = feed inc rest (lineSt sc2 p2 ln2 ps2)
              { g with sections := g.sections ++ gs } := by
  intro gs
  induction gs with
  | nil =>
      intro rest sc p ln ps g hwf
      exact ⟨sc, p, ln, ps, by simp [sectionsText]⟩
  | cons q gs ih =>
      intro rest sc p ln ps g hwf
      obtain ⟨n, s⟩ := q
      obtain ⟨hn, hnot, hinh, hattr, hnd, hkv, hrest⟩ := hwf
      have hfresh : lookupA g.sections n = none :=
        (lookupA_none_iff n g.sections).mpr hnot
      rw [show sectionsText ((n, s) :: gs) ++ rest
          = (saveSec (n, s)).data ++ (sectionsText gs ++ rest) from by
        simp [sectionsText, List.append_assoc]]
      rw [feed_save_section inc n s _ sc p ln ps g hn hfresh hinh hattr hnd hkv]
      have hwf2 : wfSections
          ((({ g with sections := g.sections ++ [(n, s)] } : Config)).sections.map
            Prod.fst) gs := by
        dsimp only
        rw [List.map_append]
        exact hrest
      obtain ⟨sc2, p2, ln2, ps2, h2⟩ := ih (rest) n (some n)
        (ln + s.values.length + 2) 1 { g with sections := g.sections ++ [(n, s)] } hwf2
      refine ⟨sc2, p2, ln2, ps2, ?_⟩
      rw [h2]
      rw [show ({ ({ g with sections := g.sections ++ [(n, s)] } : Config) with
            sections := (({ g with sections := g.sections ++ [(n, s)] } : Config)).sections ++ gs } : Config)
          = { g with sections := g.sections ++ ((n, s) :: gs) } from by
        dsimp only
        rw [List.append_assoc]
        rfl]

/-- C4 (amended): for a model whose section names, inheritance bases,
attributes, keys and values are drawn from the allowed identifier
alphabet - with fresh names, non-empty bases naming already-emitted (or
the current) sections, non-empty attributes and per-section distinct
non-empty keys - saving and re-loading the produced text reconstructs
exactly the same sections: same section list in order, same inheritance
lists in order, same attribute lists in order, same key-value maps. -/
theorem c4_amended (fuel : Nat) (gs : List (String × Sec)) (cf bp : String)
    (ms : List String) (hwf : wfSections [] gs) :
    (loadFuel [("f", save ⟨gs, cf, bp, ms⟩)] (fuel + 1) "f" initConfig).sections
      = gs := by
  rw [loadFuel_some _ fuel _ _ _ (lookupA_single "f" (save ⟨gs, cf, bp, ms⟩))]
  rw [show (save ⟨gs, cf, bp, ms⟩).data = sectionsText gs from save_data _]
  rw [initMSt_lineSt]
  have h := feed_sections
    (fun p g2 =>
      let f := g2.current_file
      let g3 := loadFuel [("f", save ⟨gs, cf, bp, ms⟩)] fuel (g2.base_path ++ p) g2
      { g3 with current_file := f })
    gs [] "" none 1 0 { initConfig with current_file := "f" } (by exact hwf)
  obtain ⟨sc2, p2, ln2, ps2, h⟩ := h
  rw [show sectionsText gs = sectionsText gs ++ [] from (List.append_nil _).symm]
  rw [h]
  rw [finish_lineSt]
  simp [initConfig]

theorem c4_amended_witness :
    wfSections []
      [("a", ⟨[], [], [("x", "1")]⟩), ("b", ⟨["a"], ["flag"], [("y", "2"), ("z", "w3")]⟩)]
    ∧ (loadFuel
        [("f", save ⟨[("a", ⟨[], [], [("x", "1")]⟩),
                      ("b", ⟨["a"], ["flag"], [("y", "2"), ("z", "w3")]⟩)], "f", "", []⟩)]
        1 "f" initConfig).sections
      = [("a", ⟨[], [], [("x", "1")]⟩), ("b", ⟨["a"], ["flag"], [("y", "2"), ("z", "w3")]⟩)] :=
  ⟨by decide, c4_amended 0 _ "f" "" [] (by decide)⟩

end CFGP
